import Mathlib

/-!
Exporter: the resolution pipeline of a chat archive.

A shallow embedding of `main.go` (the resolution pipeline of the exporter) and the
properties of it that the specification states.  The renderer of `dump.go` is outside the
embedding: the pipeline hands it the sessions and their messages.

Go strings are byte sequences, so a string is a `List UInt8`; `s[:2]`, `strings.HasPrefix`,
`filepath.Ext` and `path.Clean` all work on bytes.  The relational stores are the row
sequences their queries return; the file system is an association list from path to content
together with the log of the copies that were made.
-/

namespace Exporter

/-! ## Strings and the library functions the program calls -/

/-- A Go string: a sequence of bytes. -/
abbrev GoString := List UInt8

/-- The bytes of an ASCII literal. -/
def ascii (s : String) : GoString := s.data.map (fun c => UInt8.ofNat c.toNat)

/-- The byte `/`. -/
def slash : UInt8 := 47

/-- The byte `.`. -/
def dot : UInt8 := 46

/-- Go `strings.HasPrefix`. -/
def HasPrefix (s pre : GoString) : Bool := pre.isPrefixOf s

/-- Go `strings.HasSuffix`. -/
def HasSuffix (s suf : GoString) : Bool := suf.isSuffixOf s

/-- The decimal digits of a natural number, most significant first (`fuel` bounds the
number of digits). -/
def digitsAux : Nat → Nat → GoString → GoString
  | 0, _, acc => acc
  | fuel + 1, n, acc =>
    if n < 10 then UInt8.ofNat (48 + n) :: acc
    else digitsAux fuel (n / 10) (UInt8.ofNat (48 + n % 10) :: acc)

/-- Decimal rendering of a natural number. -/
def utoa (n : Nat) : GoString := digitsAux (n + 1) n []

/-- Go `strconv.Itoa`, which is also what `fmt.Sprintf("%d", n)` prints. -/
def Itoa (n : Int) : GoString :=
  if n < 0 then 45 :: utoa n.natAbs else utoa n.natAbs

/-- Split a path at every `/` (the pieces between slashes, empty ones included). -/
def splitSlash : GoString → List GoString
  | [] => [[]]
  | c :: cs =>
    if c = slash then [] :: splitSlash cs
    else
      match splitSlash cs with
      | [] => [[c]]
      | x :: xs => (c :: x) :: xs

/-- Join path elements with single slashes. -/
def joinSlash : List GoString → GoString
  | [] => []
  | [x] => x
  | x :: y :: ys => x ++ slash :: joinSlash (y :: ys)

/-- One step of Go `path.Clean` on the next path element; `out` is the stack of elements
written so far, last one first.  Empty and `.` elements are dropped, `..` removes the
element before it when there is one that is not itself `..`, and is kept at the front of a
path that is not rooted. -/
def cleanStep (rooted : Bool) (out : List GoString) (e : GoString) : List GoString :=
  if e = [] then out
  else if e = [dot] then out
  else if e = [dot, dot] then
    match out with
    | [] => if rooted then [] else [e]
    | top :: rest => if top = [dot, dot] then e :: out else rest
  else e :: out

/-- Go `path.Clean`: the shortest path equivalent to the given one. -/
def Clean (p : GoString) : GoString :=
  if p = [] then [dot]
  else
    let rooted := HasPrefix p [slash]
    let out := ((splitSlash p).foldl (cleanStep rooted) []).reverse
    if rooted then slash :: joinSlash out
    else if out = [] then [dot]
    else joinSlash out

/-- Go `path.Join`: the non-empty elements joined by slashes, then cleaned; the empty
string when every element is empty. -/
def Join (elems : List GoString) : GoString :=
  match elems.filter (fun e => e ≠ []) with
  | [] => []
  | es => Clean (joinSlash es)

/-- Scan of `filepath.Ext` from the end of the path: `rev` is what is still to be read,
last byte first, `acc` what was read. -/
def extAux : GoString → GoString → GoString
  | [], _ => []
  | c :: rev, acc =>
    if c = slash then []
    else if c = dot then c :: acc
    else extAux rev (c :: acc)

/-- Go `filepath.Ext` (slash-separated paths): the suffix of the last path element that
starts at its last dot, empty when it has no dot. -/
def Ext (p : GoString) : GoString := extAux p.reverse []

/-! ## Time: `time.Parse(time.RFC3339, _)`, `Time.Unix`, `time.Unix(_, 0).Format(time.RFC3339)` -/

/-- Go `time.isDigit` on one byte. -/
def isDigit (b : UInt8) : Bool := decide (48 ≤ b.toNat) && decide (b.toNat ≤ 57)

/-- The value of a digit byte. -/
def digitVal (b : UInt8) : Nat := b.toNat - 48

/-- Go `time.getnum`: a two-digit number, or a one-digit number when the field is not of
fixed width; the rest of the input follows. -/
def getnum (s : GoString) (fixed : Bool) : Option (Nat × GoString) :=
  match s with
  | [] => none
  | [a] => if isDigit a && !fixed then some (digitVal a, []) else none
  | a :: b :: rest =>
    if isDigit a then
      if isDigit b then some (digitVal a * 10 + digitVal b, rest)
      else if fixed then none
      else some (digitVal a, b :: rest)
    else none

/-- The year field of the layout (`2006`): exactly four digits. -/
def getYear (s : GoString) : Option (Nat × GoString) :=
  match s with
  | a :: b :: c :: d :: rest =>
    if isDigit a && isDigit b && isDigit c && isDigit d then
      some (((digitVal a * 10 + digitVal b) * 10 + digitVal c) * 10 + digitVal d, rest)
    else none
  | _ => none

/-- A literal byte of the layout, which the input must repeat. -/
def expect (c : UInt8) (s : GoString) : Option GoString :=
  match s with
  | [] => none
  | x :: rest => if x = c then some rest else none

/-- The fractional second that `time.Parse` accepts after the seconds although the layout
has none: a period or comma and the digits after it are consumed when at least one digit
follows. -/
def skipFraction (s : GoString) : GoString :=
  match s with
  | p :: d :: rest =>
    if (p = 46 || p = 44) && isDigit d then rest.dropWhile isDigit else s
  | _ => s

/-- The zone field of the layout (`Z07:00`): `Z`, or a sign, two digits, a colon and two
digits; hours above 24 and minutes above 60 are out of range.  The result is the offset in
seconds east of UTC and the rest of the input. -/
def getZone (s : GoString) : Option (Int × GoString) :=
  match s with
  | [] => none
  | 90 :: rest => some (0, rest)
  | sign :: h1 :: h2 :: colon :: m1 :: m2 :: rest =>
    if colon = 58 && isDigit h1 && isDigit h2 && isDigit m1 && isDigit m2 then
      let hr := digitVal h1 * 10 + digitVal h2
      let mm := digitVal m1 * 10 + digitVal m2
      let off : Int := ((hr * 60 + mm) * 60 : Nat)
      if 24 < hr || 60 < mm then none
      else if sign = 43 then some (off, rest)
      else if sign = 45 then some (-off, rest)
      else none
    else none
  | _ => none

/-- Go `time.isLeap`. -/
def isLeap (year : Nat) : Bool := year % 4 = 0 && (year % 100 ≠ 0 || year % 400 = 0)

/-- Go `time.daysIn`. -/
def daysIn (month year : Nat) : Nat :=
  if month = 2 then (if isLeap year then 29 else 28)
  else if month = 4 ∨ month = 6 ∨ month = 9 ∨ month = 11 then 30
  else 31

/-- Days from 1970-01-01 to the given day of the proleptic Gregorian calendar. -/
def daysFromCivil (y m d : Int) : Int :=
  let y1 := if m ≤ 2 then y - 1 else y
  let era := y1 / 400
  let yoe := y1 - era * 400
  let mp := if m > 2 then m - 3 else m + 9
  let doy := (153 * mp + 2) / 5 + d - 1
  let doe := yoe * 365 + yoe / 4 - yoe / 100 + doy
  era * 146097 + doe - 719468

/-- The day of the proleptic Gregorian calendar that lies the given number of days after
1970-01-01, as year, month, day. -/
def civilFromDays (days : Int) : Int × Int × Int :=
  let z := days + 719468
  let era := z / 146097
  let doe := z - era * 146097
  let yoe := (doe - doe / 1460 + doe / 36524 - doe / 146096) / 365
  let doy := doe - (365 * yoe + yoe / 4 - yoe / 100)
  let mp := (5 * doy + 2) / 153
  let d := doy - (153 * mp + 2) / 5 + 1
  let m := if mp < 10 then mp + 3 else mp - 9
  let y := yoe + era * 400
  (if m ≤ 2 then y + 1 else y, m, d)

/-- Go `time.Parse(time.RFC3339, value)` followed by `Time.Unix()`: the Unix seconds of the
instant the text denotes, `none` when `time.Parse` returns an error (the parser of Go 1.20
and later).  The layout is `2006-01-02T15:04:05Z07:00`; the hour may have one digit, a
fractional second may follow the seconds, and the day is checked against the length of the
month once all fields are read. -/
def parseRFC3339 (value : GoString) : Option Int :=
  match getYear value with
  | none => none
  | some (year, v) =>
  match (expect 45 v).bind (fun v => getnum v true) with
  | none => none
  | some (month, v) =>
  match (expect 45 v).bind (fun v => getnum v true) with
  | none => none
  | some (day, v) =>
  match (expect 84 v).bind (fun v => getnum v false) with
  | none => none
  | some (hour, v) =>
  match (expect 58 v).bind (fun v => getnum v true) with
  | none => none
  | some (minute, v) =>
  match (expect 58 v).bind (fun v => getnum v true) with
  | none => none
  | some (sec, v) =>
  match getZone (skipFraction v) with
  | none => none
  | some (zoneOffset, rest) =>
    if month = 0 ∨ 12 < month ∨ 24 ≤ hour ∨ 60 ≤ minute ∨ 60 ≤ sec then none
    else if rest ≠ [] then none
    else if day < 1 ∨ daysIn month year < day then none
    else
      some (daysFromCivil year month day * 86400 + hour * 3600 + minute * 60 + sec
        - zoneOffset)

/-- Go `time.appendInt`: the decimal digits of `x`, zero-padded to `width`, after a minus
sign when `x` is negative. -/
def appendInt (x : Int) (width : Nat) : GoString :=
  let ds := utoa x.natAbs
  let padded := List.replicate (width - ds.length) (48 : UInt8) ++ ds
  if x < 0 then 45 :: padded else padded

/-- The zone field as `Time.Format` prints it for `Z07:00`: `Z` at offset zero, otherwise
the sign and the offset in hours and minutes. -/
def formatZone (offset : Int) : GoString :=
  if offset = 0 then [90]
  else
    let zone := Int.tdiv offset 60
    let sign : UInt8 := if zone < 0 then 45 else 43
    let z := zone.natAbs
    sign :: (appendInt (z / 60 : Nat) 2 ++ 58 :: appendInt (z % 60 : Nat) 2)

/-- Go `time.Unix(unix, 0).Format(time.RFC3339)` where the local zone is `offset` seconds
east of UTC at that instant. -/
def formatRFC3339 (offset unix : Int) : GoString :=
  let abs := unix + offset
  let days := abs / 86400
  let secs := abs % 86400
  let (y, m, d) := civilFromDays days
  appendInt y 4 ++ 45 :: appendInt m 2 ++ 45 :: appendInt d 2 ++ 84 ::
    appendInt (secs / 3600) 2 ++ 58 :: appendInt (secs % 3600 / 60) 2 ++ 58 ::
    appendInt (secs % 60) 2 ++ formatZone offset

/-! ## Data model (`main.go`, the type declarations) -/

/-- A chat session: `Session` of `main.go`. -/
structure Session where
  ID : Int
  CID : GoString
  Name : GoString
deriving DecidableEq

/-- A media descriptor: `Media` of `main.go`; the default is Go's zero value. -/
structure Media where
  Hash : GoString := []
  Path : GoString := []
  Ext : GoString := []
  Title : GoString := []
deriving DecidableEq

/-- A resolved message: `Message` of `main.go`; the default is Go's zero value. -/
structure Message where
  JID : Option GoString := none
  Name : GoString := []
  Text : GoString := []
  Media : GoString := []
  MediaExt : GoString := []
  Date : GoString := []
  IsGroup : Bool := false
deriving DecidableEq

/-- The part of `App` the pipeline computes with: the two directories and the media
catalog.  `MediaMap` is a Go map: the entry nearest the head is the current one of its
key.  The two database handles are represented by the rows their queries return, which the
functions below take as arguments. -/
structure App where
  DstDir : GoString
  SrcDir : GoString
  MediaMap : List (Int × Media) := []
deriving DecidableEq

/-- The ways a run stops early: `check` with an error (the label is the one given to
`check`), a nil pointer dereference, a slice out of range. -/
inductive Abort where
  | fatal (label : String)
  | nilDereference
  | sliceOutOfRange
deriving DecidableEq

/-- What the driver holds in a column that is scanned into an integer: NULL, a value that
converts to an integer, or a value that does not (`strconv.ParseInt` rejects it). -/
inductive IntCell where
  | null
  | int (i : Int)
  | bad
deriving DecidableEq

/-- A row of `SELECT fileID,relativePath FROM Files`; `none` is NULL. -/
structure ManifestRow where
  fileID : Option GoString
  relativePath : Option GoString
deriving DecidableEq

/-- A row of `SELECT Z_PK, ZMEDIALOCALPATH, ZTITLE FROM ZWAMEDIAITEM`. -/
structure MediaRow where
  Z_PK : IntCell
  ZMEDIALOCALPATH : Option GoString
  ZTITLE : Option GoString
deriving DecidableEq

/-- A row of the session query of `GetSessions`. -/
structure SessionRow where
  Z_PK : IntCell
  ZCONTACTJID : Option GoString
  ZPARTNERNAME : Option GoString
deriving DecidableEq

/-- A row of the message query of `SessionMessages`. -/
structure MessageRow where
  ZFROMJID : Option GoString
  ZPUSHNAME : Option GoString
  ZTEXT : Option GoString
  ZMEDIAITEM : IntCell
  ZMESSAGEDATE : Option GoString
  ZGROUPMEMBER : Option GoString
deriving DecidableEq

/-! ## The file system -/

/-- The file system as the pipeline sees it: the regular files by path (the entry nearest
the head is the current content of its path), the log of the copies made, source and
destination, oldest first, and the directories that cannot be created. -/
structure Disk where
  files : List (GoString × GoString) := []
  copied : List (GoString × GoString) := []
  blocked : List GoString := []
deriving DecidableEq

/-- Lookup in a Go map kept as an association list. -/
def find {κ β : Type} [DecidableEq κ] (k : κ) : List (κ × β) → Option β
  | [] => none
  | (k1, v) :: rest => if k1 = k then some v else find k rest

/-- The content of the file at a path, `none` when there is none (`os.Stat` then reports
that it does not exist). -/
def Disk.read (d : Disk) (p : GoString) : Option GoString := find p d.files

/-- Go `os.MkdirAll`, as far as the pipeline depends on it: it fails for the directories
the environment blocks and leaves the files alone. -/
def MkdirAll (p : GoString) (d : Disk) : Option Disk :=
  if p ∈ d.blocked then none else some d

/-- Modelled from the spec: `copyFile`, whose definition is not in the source files.  It is
the byte-level copy of section 4.1: the destination receives the bytes of the source, and
the copy fails when the source cannot be read. -/
def copyFile (src dst : GoString) (d : Disk) : Option Disk :=
  match d.read src with
  | none => none
  | some content =>
    some { d with files := (dst, content) :: d.files, copied := d.copied ++ [(src, dst)] }

/-- Modelled from the spec: `check`, whose definition is not in the source files.  An error
is fatal: the run stops with the diagnostic (sections 4.1 and 7). -/
def check {α : Type} (label : String) (r : Option α) : Except Abort α :=
  match r with
  | none => .error (.fatal label)
  | some a => .ok a

/-! ## `NewApp` and `LoadMediaMap` -/

/-- The pure part of `NewApp`: the directories are stored and the catalog starts empty.
The copies of the two databases into the destination are not part of the embedding. -/
def NewApp (src dst : GoString) : App := { SrcDir := src, DstDir := dst, MediaMap := [] }

/-- The first loop of `LoadMediaMap`: `hashMap[*path] = *hash` for every manifest row; a
NULL column is a nil pointer that the assignment dereferences. -/
def loadHashMap : List ManifestRow → List (GoString × GoString) →
    Except Abort (List (GoString × GoString))
  | [], hashMap => .ok hashMap
  | row :: rows, hashMap =>
    match row.relativePath, row.fileID with
    | some path, some hash => loadHashMap rows ((path, hash) :: hashMap)
    | _, _ => .error .nilDereference

/-- Go map read `hashMap[key]`: the empty string when the key is absent. -/
def hashOf (hashMap : List (GoString × GoString)) (key : GoString) : GoString :=
  (find key hashMap).getD []

/-- The key under which `LoadMediaMap` looks a media path up in the manifest. -/
def mediaKey (path : GoString) : GoString :=
  if HasPrefix path (ascii "/") then ascii "Message" ++ path
  else ascii "Message/" ++ path

/-- The descriptor `LoadMediaMap` builds for a media row with a path. -/
def mediaOf (hashMap : List (GoString × GoString)) (path : GoString)
    (title : Option GoString) : Media :=
  { Title := title.getD [], Path := path, Ext := Ext path, Hash := hashOf hashMap (mediaKey path) }

/-- The second loop of `LoadMediaMap`: a row whose key does not scan into `id` is fatal, a
row without a path is skipped, every other row sets `MediaMap[id]`. -/
def loadMedia (hashMap : List (GoString × GoString)) :
    List MediaRow → List (Int × Media) → Except Abort (List (Int × Media))
  | [], mediaMap => .ok mediaMap
  | row :: rows, mediaMap =>
    match row.Z_PK with
    | .int id =>
      match row.ZMEDIALOCALPATH with
      | none => loadMedia hashMap rows mediaMap
      | some path => loadMedia hashMap rows ((id, mediaOf hashMap path row.ZTITLE) :: mediaMap)
    | _ => .error (.fatal "scan 2")

/-- The method `App.LoadMediaMap`: the path index from the manifest rows, then the catalog from the
media rows.  The third loop, over the profile pictures, only fills a local variable and is
left out: its columns are scanned into `*string`, which accepts every value. -/
def LoadMediaMap (app : App) (manifest : List ManifestRow) (media : List MediaRow) :
    Except Abort App :=
  match loadHashMap manifest [] with
  | .error e => .error e
  | .ok hashMap =>
    match loadMedia hashMap media app.MediaMap with
    | .error e => .error e
    | .ok mediaMap => .ok { app with MediaMap := mediaMap }

/-! ## `GetSessions` -/

/-- The scan `rows.Scan(&cs.ID, &cs.CID, &cs.Name)`: the destinations are not pointers, so NULL in
any column is an error, as is a key that is not an integer. -/
def scanSession (row : SessionRow) : Option Session :=
  match row.Z_PK, row.ZCONTACTJID, row.ZPARTNERNAME with
  | .int id, some cid, some name => some { ID := id, CID := cid, Name := name }
  | _, _, _ => none

/-- The loop of `GetSessions`; `css` is the slice built so far. -/
def getSessionsLoop : List SessionRow → List Session → Option (List Session)
  | [], css => some css
  | row :: rows, css =>
    match scanSession row with
    | none => none
    | some cs =>
      if HasSuffix cs.CID (ascii "@status") then getSessionsLoop rows css
      else getSessionsLoop rows (css ++ [cs])

/-- The method `App.GetSessions` on the rows of the session query, which the store orders by
descending last-message date; `none` is the error return. -/
def GetSessions (rows : List SessionRow) : Option (List Session) :=
  getSessionsLoop rows []

/-- The row of the session query that scans into the given session. -/
def Session.toRow (s : Session) : SessionRow :=
  { Z_PK := .int s.ID, ZCONTACTJID := some s.CID, ZPARTNERNAME := some s.Name }

/-! ## `SessionMessages` -/

/-- The six variables `rows.Scan` of `SessionMessages` fills. -/
structure Scanned where
  JID : Option GoString := none
  name : Option GoString := none
  text : Option GoString := none
  mediaID : Option Int := none
  date : Option GoString := none
  group : Option GoString := none
deriving DecidableEq

/-- The scan `rows.Scan(&msg.JID, &name, &text, &mediaID, &date, &group)` and whether it
returned an error.  `database/sql` converts column by column and stops at the first column
that fails.  The string columns accept every value; the media id fails on a value that is
not an integer, and by then its destination already points to a fresh zero, while the two
columns after it keep their initial nil. -/
def scanMessage (row : MessageRow) : Scanned × Bool :=
  match row.ZMEDIAITEM with
  | .null =>
    ({ JID := row.ZFROMJID, name := row.ZPUSHNAME, text := row.ZTEXT, mediaID := none,
       date := row.ZMESSAGEDATE, group := row.ZGROUPMEMBER }, false)
  | .int id =>
    ({ JID := row.ZFROMJID, name := row.ZPUSHNAME, text := row.ZTEXT, mediaID := some id,
       date := row.ZMESSAGEDATE, group := row.ZGROUPMEMBER }, false)
  | .bad =>
    ({ JID := row.ZFROMJID, name := row.ZPUSHNAME, text := row.ZTEXT, mediaID := some 0 },
      true)

/-- Go map read `app.MediaMap[id]`: the zero descriptor when the id has no entry. -/
def mediaAt (app : App) (id : Int) : Media := (find id app.MediaMap).getD {}

/-- The content location `path.Join(root, hash[:2], hash)`, which `NewApp` computes for the
chat store and `SessionMessages` for a media file; the slice `hash[:2]` is out of range for
a hash of fewer than two bytes. -/
def locate (root hash : GoString) : Except Abort GoString :=
  if hash.length < 2 then .error .sliceOutOfRange
  else .ok (Join [root, hash.take 2, hash])

/-- The media block of the loop body of `SessionMessages` for a row with a media id: when
the descriptor has a hash, the content is copied to the destination unless a file is
already there, and the message gets the relative path, the extension and the title. -/
def attachMedia (app : App) (mediaBase : GoString) (id : Int) (msg : Message) (d : Disk) :
    Except Abort (Message × Disk) :=
  let media := mediaAt app id
  if media.Hash ≠ [] then
    match locate app.SrcDir media.Hash with
    | .error e => .error e
    | .ok mediaSrc =>
      let mediaDst := Join [app.DstDir, mediaBase, Itoa id ++ media.Ext]
      let copied : Except Abort Disk :=
        if d.read mediaDst = none then check "Copy media" (copyFile mediaSrc mediaDst d)
        else .ok d
      match copied with
      | .error e => .error e
      | .ok d1 =>
        .ok ({ msg with
                Media := Join [mediaBase, Itoa id ++ media.Ext]
                MediaExt := media.Ext
                Text := media.Title }, d1)
  else .ok (msg, d)

/-- The date block of the loop body: the stored text is parsed, the offset of the platform
epoch is added to its Unix seconds, and the result is printed in the local zone, whose
offset from UTC at an instant is `localZone`; a text that does not parse leaves the date
empty. -/
def setDate (localZone : Int → Int) (date : Option GoString) (msg : Message) : Message :=
  match date with
  | none => msg
  | some text =>
    match parseRFC3339 text with
    | none => msg
    | some unix =>
      let appleTime := unix + 978307200
      { msg with Date := formatRFC3339 (localZone appleTime) appleTime }

/-- The loop body of `SessionMessages` for one row: the message it appends and the file
system it leaves.  A scan error is logged and the body goes on. -/
def resolveRow (localZone : Int → Int) (app : App) (mediaBase : GoString) (row : MessageRow)
    (d : Disk) : Except Abort (Message × Disk) :=
  let v := (scanMessage row).1
  let msg : Message := { JID := v.JID }
  let msg := match v.text with
    | some text => { msg with Text := text }
    | none => msg
  let msg := match v.name with
    | some name => { msg with Name := name }
    | none => msg
  let attached : Except Abort (Message × Disk) :=
    match v.mediaID with
    | some id => attachMedia app mediaBase id msg d
    | none => .ok (msg, d)
  match attached with
  | .error e => .error e
  | .ok (msg, d1) =>
    let msg := setDate localZone v.date msg
    .ok ({ msg with IsGroup := v.group.isSome }, d1)

/-- The loop of `SessionMessages`; `messages` is the slice built so far. -/
def sessionLoop (localZone : Int → Int) (app : App) (mediaBase : GoString) :
    List MessageRow → List Message → Disk → Except Abort (List Message × Disk)
  | [], messages, d => .ok (messages, d)
  | row :: rows, messages, d =>
    match resolveRow localZone app mediaBase row d with
    | .error e => .error e
    | .ok (msg, d1) => sessionLoop localZone app mediaBase rows (messages ++ [msg]) d1

/-- The method `App.SessionMessages` on the rows of the message query of the session, in the
order of the query: the media directory of the session is created, then every row is
resolved. -/
def SessionMessages (localZone : Int → Int) (app : App) (session : Session)
    (rows : List MessageRow) (d : Disk) : Except Abort (List Message × Disk) :=
  let mediaBase := Join [ascii "media", Itoa session.ID]
  match check "Makedir" (MkdirAll (Join [app.DstDir, mediaBase]) d) with
  | .error e => .error e
  | .ok d1 => sessionLoop localZone app mediaBase rows [] d1

/-! ## The loop of `main` -/

/-- The loop of `main` over the enumerated sessions.  `messagesOf` gives the rows of the
message query of a session, `counter` is the counter of the loop and `rendered` the
sessions handed to `DumpSession` so far, each with its messages. -/
def mainLoop (localZone : Int → Int) (app : App) (messagesOf : Int → List MessageRow)
    (chatLimit : Int) :
    List Session → Int → List (Session × List Message) → Disk →
      Except Abort (List (Session × List Message) × Disk)
  | [], _, rendered, d => .ok (rendered, d)
  | session :: rest, counter, rendered, d =>
    match SessionMessages localZone app session (messagesOf session.ID) d with
    | .error e => .error e
    | .ok (messages, d1) =>
      let rendered := rendered ++ [(session, messages)]
      let counter := counter + 1
      if chatLimit > 0 ∧ counter > chatLimit then .ok (rendered, d1)
      else mainLoop localZone app messagesOf chatLimit rest counter rendered d1

/-- The two stores as `main` reads them: the rows of the manifest, of the media table and
of the session query, and the rows of the message query for each session id. -/
structure Store where
  manifest : List ManifestRow
  media : List MediaRow
  sessions : List SessionRow
  messagesOf : Int → List MessageRow

/-- The function `main` after the flags are parsed: the catalog is loaded, the sessions are
enumerated, and the loop runs with the counter at zero.  The result is the sessions handed
to `DumpSession`, each with its messages, and the file system; the pages that
`DumpSessions` and `DumpSession` write are not part of the embedding. -/
def main (localZone : Int → Int) (src dst : GoString) (chatLimit : Int) (store : Store)
    (d : Disk) : Except Abort (List (Session × List Message) × Disk) :=
  match LoadMediaMap (NewApp src dst) store.manifest store.media with
  | .error e => .error e
  | .ok app =>
    match check "GetSession" (GetSessions store.sessions) with
    | .error e => .error e
    | .ok sessions => mainLoop localZone app store.messagesOf chatLimit sessions 0 [] d

/-! ## Predicates of the statements -/

/-- A path element that `path.Clean` keeps as it is: not empty, without a slash, and
neither `.` nor `..`. -/
def Plain (x : GoString) : Prop := x ≠ [] ∧ slash ∉ x ∧ x ≠ [dot] ∧ x ≠ [dot, dot]

/-- The second file system keeps every file of the first with its content. -/
def Keeps (d d1 : Disk) : Prop := ∀ p c, d.read p = some c → d1.read p = some c

/-- The copy `SessionMessages` makes for the media id `id`: from the content location of
the hash to the destination file of the id. -/
def mediaCopy (app : App) (mediaBase : GoString) (id : Int) : GoString × GoString :=
  (Join [app.SrcDir, (mediaAt app id).Hash.take 2, (mediaAt app id).Hash],
   Join [app.DstDir, mediaBase, Itoa id ++ (mediaAt app id).Ext])

/-! ## Concrete inputs -/

/-- The local zone UTC. -/
def utc : Int → Int := fun _ => 0

/-- The manifest of the end-to-end example: one file. -/
def exManifest : List ManifestRow :=
  [{ fileID := some (ascii "ab12"), relativePath := some (ascii "Message/Media/photo.jpg") }]

/-- The media table of the end-to-end example: one row, without a title. -/
def exMedia : List MediaRow :=
  [{ Z_PK := .int 5, ZMEDIALOCALPATH := some (ascii "Media/photo.jpg"), ZTITLE := none }]

/-- A media table whose one row has no path. -/
def exMediaNoPath : List MediaRow :=
  [{ Z_PK := .int 5, ZMEDIALOCALPATH := none, ZTITLE := some (ascii "card") }]

/-- The catalog `LoadMediaMap` builds in the end-to-end example. -/
def exApp : App :=
  { DstDir := ascii "dst", SrcDir := ascii "src",
    MediaMap := [(5, { Hash := ascii "ab12", Path := ascii "Media/photo.jpg",
                       Ext := ascii ".jpg", Title := [] })] }

/-- The session of the examples. -/
def exSession : Session := { ID := 7, CID := ascii "491234@s.whatsapp.net", Name := ascii "Ann" }

/-- A message row that references media id 5 and has a text of its own. -/
def exRow : MessageRow :=
  { ZFROMJID := some (ascii "491234@s.whatsapp.net"), ZPUSHNAME := some (ascii "Ann"),
    ZTEXT := some (ascii "hello"), ZMEDIAITEM := .int 5,
    ZMESSAGEDATE := some (ascii "2020-01-01T00:00:00Z"), ZGROUPMEMBER := none }

/-- A message row without media whose date is not a date. -/
def exRowBadDate : MessageRow :=
  { ZFROMJID := none, ZPUSHNAME := none, ZTEXT := some (ascii "bye"), ZMEDIAITEM := .null,
    ZMESSAGEDATE := some (ascii "yesterday"), ZGROUPMEMBER := none }

/-- A message row without media and without a date. -/
def exRowNoDate : MessageRow :=
  { ZFROMJID := none, ZPUSHNAME := none, ZTEXT := some (ascii "ok"), ZMEDIAITEM := .null,
    ZMESSAGEDATE := none, ZGROUPMEMBER := some (ascii "12") }

/-- A malformed message row: its media column holds a value that is not an integer. -/
def exRowMalformed : MessageRow :=
  { ZFROMJID := none, ZPUSHNAME := none, ZTEXT := some (ascii "broken"), ZMEDIAITEM := .bad,
    ZMESSAGEDATE := some (ascii "2020-01-01T00:00:00Z"), ZGROUPMEMBER := none }

/-- The source directory of the end-to-end example: the content of hash `ab12`. -/
def exDisk : Disk := { files := [(ascii "src/ab/ab12", ascii "JPEG")] }

/-- The file system after the end-to-end example. -/
def exDisk1 : Disk :=
  { files := [(ascii "dst/media/7/5.jpg", ascii "JPEG"), (ascii "src/ab/ab12", ascii "JPEG")],
    copied := [(ascii "src/ab/ab12", ascii "dst/media/7/5.jpg")] }

/-- The message of the end-to-end example. -/
def exMsg : Message :=
  { JID := some (ascii "491234@s.whatsapp.net"), Name := ascii "Ann", Text := [],
    Media := ascii "media/7/5.jpg", MediaExt := ascii ".jpg",
    Date := ascii "2051-01-01T00:00:00Z", IsGroup := false }

/-- Three sessions, as `GetSessions` returns them. -/
def exSessions : List Session :=
  [{ ID := 1, CID := ascii "a@s.whatsapp.net", Name := ascii "A" },
   { ID := 2, CID := ascii "b@s.whatsapp.net", Name := ascii "B" },
   { ID := 3, CID := ascii "c@s.whatsapp.net", Name := ascii "C" }]

/-- A store with the three sessions of `exSessions`, none of which has a message. -/
def exStore : Store :=
  { manifest := exManifest, media := exMedia, sessions := exSessions.map Session.toRow,
    messagesOf := fun _ => [] }

/-- The row of the timestamp example: no media, the stored date `2020-01-01T00:00:00Z`. -/
def dateRow : MessageRow :=
  { ZFROMJID := none, ZPUSHNAME := none, ZTEXT := none, ZMEDIAITEM := .null,
    ZMESSAGEDATE := some (ascii "2020-01-01T00:00:00Z"), ZGROUPMEMBER := none }

/-- A catalog whose one entry has a hash of a single byte. -/
def shortHashApp : App :=
  { DstDir := ascii "dst", SrcDir := ascii "src",
    MediaMap := [(5, { Hash := ascii "a", Path := ascii "Media/x.jpg", Ext := ascii ".jpg" })] }

/-- A manifest with one file, stored under the logical path `Message/Media/x.jpg`. -/
def keyManifest : List ManifestRow :=
  [{ fileID := some (ascii "cd34"), relativePath := some (ascii "Message/Media/x.jpg") }]

/-- The catalog `LoadMediaMap` builds from `keyManifest` for the media rows 1, with the path
`Media/x.jpg`, and 2, with the path `/Media/x.jpg`. -/
def keyApp : App :=
  { DstDir := ascii "dst", SrcDir := ascii "src",
    MediaMap :=
      [(2, { Hash := ascii "cd34", Path := ascii "/Media/x.jpg", Ext := ascii ".jpg" }),
       (1, { Hash := ascii "cd34", Path := ascii "Media/x.jpg", Ext := ascii ".jpg" })] }

/-- The media table of the normalization example. -/
def keyMedia : List MediaRow :=
  [{ Z_PK := .int 1, ZMEDIALOCALPATH := some (ascii "Media/x.jpg"), ZTITLE := none },
   { Z_PK := .int 2, ZMEDIALOCALPATH := some (ascii "/" ++ ascii "Media/x.jpg"),
     ZTITLE := none }]

/-! ## Facts about the path functions -/

theorem splitSlash_ne_nil (p : GoString) : splitSlash p ≠ [] := by
  cases p with
  | nil => simp [splitSlash]
  | cons c cs =>
    unfold splitSlash
    split
    · simp
    · split <;> simp

theorem splitSlash_of_not_mem (x : GoString) (h : slash ∉ x) : splitSlash x = [x] := by
  induction x with
  | nil => rfl
  | cons c cs ih =>
    have hc : c ≠ slash := fun e => h (by simp [e])
    have hcs : slash ∉ cs := fun e => h (by simp [e])
    simp [splitSlash, hc, ih hcs]

theorem splitSlash_append (r s : GoString) :
    splitSlash (r ++ slash :: s) = splitSlash r ++ splitSlash s := by
  induction r with
  | nil => simp [splitSlash]
  | cons c cs ih =>
    by_cases hc : c = slash
    · simp [splitSlash, hc, ih]
    · have hne := splitSlash_ne_nil cs
      cases hsp : splitSlash cs with
      | nil => exact absurd hsp hne
      | cons x xs => simp [splitSlash, hc, ih, hsp]

theorem cleanStep_plain (rooted : Bool) (out : List GoString) (x : GoString) (hx : Plain x) :
    cleanStep rooted out x = x :: out := by
  obtain ⟨h1, _, h3, h4⟩ := hx
  simp [cleanStep, h1, h3, h4]

theorem joinSlash_snoc (l : List GoString) (x : GoString) (hl : l ≠ []) :
    joinSlash (l ++ [x]) = joinSlash l ++ slash :: x := by
  induction l with
  | nil => exact absurd rfl hl
  | cons a t ih =>
    cases t with
    | nil => simp [joinSlash]
    | cons b t2 =>
      have := ih (by simp)
      simp [joinSlash] at this ⊢
      exact this

theorem cleanStep_ne_nil (rooted : Bool) (out : List GoString) (e : GoString)
    (hout : ∀ x ∈ out, x ≠ []) : ∀ x ∈ cleanStep rooted out e, x ≠ [] := by
  unfold cleanStep
  split
  · exact hout
  · split
    · exact hout
    · split
      · split
        · split
          · simp
          · intro x hx; simp at hx; subst hx; assumption
        · split
          · intro x hx
            simp only [List.mem_cons] at hx
            rcases hx with rfl | hx
            · assumption
            · exact hout x (by simpa using hx)
          · intro x hx; exact hout x (by simp [hx])
      · intro x hx
        simp only [List.mem_cons] at hx
        rcases hx with rfl | hx
        · assumption
        · exact hout x hx

theorem foldl_cleanStep_ne_nil (rooted : Bool) (es out : List GoString)
    (hout : ∀ x ∈ out, x ≠ []) : ∀ x ∈ es.foldl (cleanStep rooted) out, x ≠ [] := by
  induction es generalizing out with
  | nil => simpa using hout
  | cons e es ih => exact ih _ (cleanStep_ne_nil rooted out e hout)

/-- Appending a plain element to a clean path other than `.` and `/` gives a clean path:
`path.Clean` returns it unchanged. -/
theorem Clean_snoc (r x : GoString) (hr : Clean r = r) (hdot : r ≠ [dot])
    (hroot : r ≠ [slash]) (hx : Plain x) : Clean (r ++ slash :: x) = r ++ slash :: x := by
  have hrne : r ≠ [] := by
    intro e; rw [e] at hr; simp [Clean] at hr
  obtain ⟨c, cs, rfl⟩ := List.exists_cons_of_ne_nil hrne
  have hsplit : splitSlash ((c :: cs) ++ slash :: x) = splitSlash (c :: cs) ++ [x] := by
    rw [splitSlash_append, splitSlash_of_not_mem x hx.2.1]
  have hrooted : HasPrefix ((c :: cs) ++ slash :: x) [slash] = HasPrefix (c :: cs) [slash] := by
    simp [HasPrefix, List.isPrefixOf]
  have hne : ∀ e ∈ (splitSlash (c :: cs)).foldl (cleanStep (HasPrefix (c :: cs) [slash])) [],
      e ≠ [] := foldl_cleanStep_ne_nil _ _ [] (by simp)
  unfold Clean at hr ⊢
  simp only [List.cons_append, reduceCtorEq, ↓reduceIte] at hr ⊢
  rw [← List.cons_append, hrooted, hsplit, List.foldl_append]
  simp only [List.foldl_cons, List.foldl_nil]
  rw [cleanStep_plain _ _ _ hx, List.reverse_cons]
  generalize hout : (splitSlash (c :: cs)).foldl (cleanStep (HasPrefix (c :: cs) [slash])) [] = out
    at hr hne ⊢
  have houtne : out ≠ [] := by
    intro e
    subst e
    by_cases hb : HasPrefix (c :: cs) [slash] = true
    · simp [hb, joinSlash] at hr
      exact hroot (by rw [← hr.1, ← hr.2])
    · simp [hb] at hr
      exact hdot (by rw [← hr.1, ← hr.2])
  have hrev : out.reverse ≠ [] := by simpa using houtne
  by_cases hb : HasPrefix (c :: cs) [slash] = true
  · simp only [hb, ↓reduceIte] at hr ⊢
    rw [joinSlash_snoc _ _ hrev, ← List.cons_append, hr]
  · simp only [hb, Bool.false_eq_true, ↓reduceIte] at hr ⊢
    have h1 : out.reverse ++ [x] ≠ [] := by simp
    simp only [List.reverse_eq_nil_iff, houtne, h1, ↓reduceIte] at hr ⊢
    rw [joinSlash_snoc _ _ hrev, hr]

/-! ## Facts about `Itoa`, `Ext` and the catalog -/

theorem digit_byte (k : Nat) (hk : k < 10) :
    UInt8.ofNat (48 + k) ≠ slash ∧ UInt8.ofNat (48 + k) ≠ dot := by
  revert k
  decide

theorem digitsAux_bytes (fuel n : Nat) (acc : GoString)
    (hacc : ∀ b ∈ acc, b ≠ slash ∧ b ≠ dot) :
    ∀ b ∈ digitsAux fuel n acc, b ≠ slash ∧ b ≠ dot := by
  induction fuel generalizing n acc with
  | zero => simpa [digitsAux] using hacc
  | succ fuel ih =>
    unfold digitsAux
    split
    · intro b hb
      simp only [List.mem_cons] at hb
      rcases hb with rfl | hb
      · exact digit_byte n (by assumption)
      · exact hacc b hb
    · apply ih
      intro b hb
      simp only [List.mem_cons] at hb
      rcases hb with rfl | hb
      · exact digit_byte (n % 10) (Nat.mod_lt _ (by decide))
      · exact hacc b hb

theorem digitsAux_ne_nil (fuel n : Nat) (acc : GoString) :
    digitsAux (fuel + 1) n acc ≠ [] := by
  induction fuel generalizing n acc with
  | zero =>
    unfold digitsAux
    split
    · simp
    · simp [digitsAux]
  | succ fuel ih =>
    unfold digitsAux
    split
    · simp
    · exact ih _ _

theorem Itoa_bytes (n : Int) : ∀ b ∈ Itoa n, b ≠ slash ∧ b ≠ dot := by
  unfold Itoa utoa
  split
  · intro b hb
    simp only [List.mem_cons] at hb
    rcases hb with rfl | hb
    · decide
    · exact digitsAux_bytes _ _ [] (by simp) b hb
  · exact digitsAux_bytes _ _ [] (by simp)

theorem Itoa_ne_nil (n : Int) : Itoa n ≠ [] := by
  unfold Itoa utoa
  split
  · simp
  · exact digitsAux_ne_nil _ _ _

theorem extAux_not_mem (rev acc : GoString) (hacc : slash ∉ acc) :
    slash ∉ extAux rev acc := by
  induction rev generalizing acc with
  | nil => simp [extAux]
  | cons c rev ih =>
    unfold extAux
    split
    · simp
    · split
      · rename_i h1 h2
        intro hmem
        simp only [List.mem_cons] at hmem
        rcases hmem with e | e
        · exact h1 e.symm
        · exact hacc e
      · apply ih
        intro hmem
        simp only [List.mem_cons] at hmem
        rcases hmem with e | e
        · rename_i h1 h2
          exact h1 e.symm
        · exact hacc e

/-- An extension never contains a slash. -/
theorem Ext_not_mem (p : GoString) : slash ∉ Ext p := extAux_not_mem _ _ (by simp)

/-- The name `<mediaID><ext>` of a materialized file is a plain path element when the
extension has no slash. -/
theorem Plain_name (id : Int) (ext : GoString) (hext : slash ∉ ext) :
    Plain (Itoa id ++ ext) := by
  obtain ⟨c, cs, hc⟩ := List.exists_cons_of_ne_nil (Itoa_ne_nil id)
  have hb := Itoa_bytes id
  have hc0 : c ≠ slash ∧ c ≠ dot := hb c (by simp [hc])
  refine ⟨by simp [hc], ?_, ?_, ?_⟩
  · intro hmem
    rcases List.mem_append.mp hmem with h | h
    · exact (hb _ h).1 rfl
    · exact hext h
  · intro e
    rw [hc] at e
    simp at e
    exact hc0.2 e.1
  · intro e
    rw [hc] at e
    simp at e
    exact hc0.2 e.1

/-- The session directory `media/<sessionID>` is what `path.Join` returns for it. -/
theorem mediaBase_eq (sid : Int) :
    Join [ascii "media", Itoa sid] = ascii "media/" ++ Itoa sid := by
  have hne := Itoa_ne_nil sid
  have hplain : Plain (Itoa sid) := by
    have := Plain_name sid [] (by simp)
    simpa using this
  have h := Clean_snoc (ascii "media") (Itoa sid) (by decide) (by decide) (by decide) hplain
  have hj : Join [ascii "media", Itoa sid] = Clean (ascii "media" ++ slash :: Itoa sid) := by
    simp [Join, List.filter, hne, joinSlash, show ascii "media" ≠ [] by decide]
  rw [hj, h]
  have : ascii "media/" = ascii "media" ++ [slash] := by decide
  rw [this]
  simp

/-- The relative path of a materialized file is `media/<sessionID>/<mediaID><ext>`
literally: `path.Join` finds nothing to clean in it. -/
theorem mediaPath_eq (sid id : Int) (ext : GoString) (hext : slash ∉ ext) :
    Join [Join [ascii "media", Itoa sid], Itoa id ++ ext] =
      ascii "media/" ++ Itoa sid ++ ascii "/" ++ Itoa id ++ ext := by
  have hbase := mediaBase_eq sid
  have hplainS : Plain (Itoa sid) := by
    have := Plain_name sid [] (by simp)
    simpa using this
  have hclean : Clean (ascii "media/" ++ Itoa sid) = ascii "media/" ++ Itoa sid := by
    have h := Clean_snoc (ascii "media") (Itoa sid) (by decide) (by decide) (by decide) hplainS
    have e : ascii "media/" = ascii "media" ++ [slash] := by decide
    rw [e]
    simpa using h
  have hne1 : ascii "media/" ++ Itoa sid ≠ [] := by
    have : ascii "media/" ≠ [] := by decide
    simp [this]
  have hname := Plain_name id ext hext
  have hd : ascii "media/" ++ Itoa sid ≠ [dot] := by
    have e : ascii "media/" = 109 :: ascii "edia/" := by decide
    rw [e]; simp [dot]
  have hs : ascii "media/" ++ Itoa sid ≠ [slash] := by
    have e : ascii "media/" = 109 :: ascii "edia/" := by decide
    rw [e]; simp [slash]
  have h2 := Clean_snoc _ _ hclean hd hs hname
  rw [hbase]
  have hj : Join [ascii "media/" ++ Itoa sid, Itoa id ++ ext] =
      Clean ((ascii "media/" ++ Itoa sid) ++ slash :: (Itoa id ++ ext)) := by
    simp only [Join, List.filter, hne1, hname.1, ne_eq, not_false_eq_true, decide_True,
      joinSlash]
  rw [hj, h2]
  have e : ascii "/" = [slash] := by decide
  rw [e]
  simp

theorem loadMedia_entry (hashMap : List (GoString × GoString)) (rows : List MediaRow)
    (mediaMap out : List (Int × Media)) (h : loadMedia hashMap rows mediaMap = .ok out)
    (id : Int) (m : Media) (hm : find id out = some m) :
    find id mediaMap = some m ∨
      ∃ row ∈ rows, ∃ path, row.Z_PK = .int id ∧ row.ZMEDIALOCALPATH = some path ∧
        m = mediaOf hashMap path row.ZTITLE := by
  induction rows generalizing mediaMap with
  | nil =>
    simp [loadMedia] at h
    subst h
    exact Or.inl hm
  | cons row rows ih =>
    unfold loadMedia at h
    split at h
    · rename_i id1 hpk
      split at h
      · rcases ih _ h with h1 | ⟨r, hr, p, h2⟩
        · exact Or.inl h1
        · exact Or.inr ⟨r, by simp [hr], p, h2⟩
      · rename_i path hpath
        rcases ih _ h with h1 | ⟨r, hr, p, h2⟩
        · simp only [find] at h1
          split at h1
          · rename_i heq
            right
            refine ⟨row, by simp, path, ?_, hpath, ?_⟩
            · rw [hpk, heq]
            · simp at h1; exact h1.symm
          · exact Or.inl h1
        · exact Or.inr ⟨r, by simp [hr], p, h2⟩
    · simp at h

/-- Every entry of the catalog that `LoadMediaMap` builds comes from a media row with a
path: its extension is the extension of that path and its hash the manifest's hash for the
normalized path. -/
theorem LoadMediaMap_entry (src dst : GoString) (manifest : List ManifestRow)
    (media : List MediaRow) (app : App)
    (h : LoadMediaMap (NewApp src dst) manifest media = .ok app) (id : Int) (m : Media)
    (hm : find id app.MediaMap = some m) :
    ∃ hashMap, loadHashMap manifest [] = .ok hashMap ∧
      ∃ row ∈ media, ∃ path, row.Z_PK = .int id ∧ row.ZMEDIALOCALPATH = some path ∧
        m = mediaOf hashMap path row.ZTITLE := by
  unfold LoadMediaMap at h
  split at h
  · simp at h
  · rename_i hashMap hhash
    split at h
    · simp at h
    · rename_i mediaMap hmedia
      simp at h
      subst h
      rcases loadMedia_entry hashMap media _ mediaMap hmedia id m hm with h1 | h2
      · simp [NewApp, find] at h1
      · exact ⟨hashMap, hhash, h2⟩

/-! ## Facts about the loop body of `SessionMessages` -/

theorem setDate_other (lz : Int → Int) (date : Option GoString) (msg : Message) :
    (setDate lz date msg).JID = msg.JID ∧ (setDate lz date msg).Name = msg.Name ∧
    (setDate lz date msg).Text = msg.Text ∧ (setDate lz date msg).Media = msg.Media ∧
    (setDate lz date msg).MediaExt = msg.MediaExt ∧
    (setDate lz date msg).IsGroup = msg.IsGroup := by
  unfold setDate
  split
  · simp
  · split <;> simp

theorem setDate_parsed (lz : Int → Int) (text : GoString) (unix : Int) (msg : Message)
    (hp : parseRFC3339 text = some unix) :
    (setDate lz (some text) msg).Date =
      formatRFC3339 (lz (unix + 978307200)) (unix + 978307200) := by
  simp [setDate, hp]

theorem setDate_unparsed (lz : Int → Int) (date : Option GoString) (msg : Message)
    (h : date = none ∨ ∃ text, date = some text ∧ parseRFC3339 text = none) :
    (setDate lz date msg).Date = msg.Date := by
  rcases h with rfl | ⟨text, rfl, hp⟩
  · simp [setDate]
  · simp [setDate, hp]

theorem attachMedia_unresolved (app : App) (mediaBase : GoString) (id : Int) (msg : Message)
    (d : Disk) (h : (mediaAt app id).Hash = []) :
    attachMedia app mediaBase id msg d = .ok (msg, d) := by
  simp [attachMedia, h]

theorem attachMedia_ok (app : App) (mediaBase : GoString) (id : Int) (msg m : Message)
    (d d1 : Disk) (hh : (mediaAt app id).Hash ≠ [])
    (h : attachMedia app mediaBase id msg d = .ok (m, d1)) :
    m = { msg with
            Media := Join [mediaBase, Itoa id ++ (mediaAt app id).Ext]
            MediaExt := (mediaAt app id).Ext
            Text := (mediaAt app id).Title } ∧
    2 ≤ (mediaAt app id).Hash.length ∧
    ((d.read (Join [app.DstDir, mediaBase, Itoa id ++ (mediaAt app id).Ext]) ≠ none ∧
        d1 = d) ∨
      (d.read (Join [app.DstDir, mediaBase, Itoa id ++ (mediaAt app id).Ext]) = none ∧
        copyFile (Join [app.SrcDir, (mediaAt app id).Hash.take 2, (mediaAt app id).Hash])
          (Join [app.DstDir, mediaBase, Itoa id ++ (mediaAt app id).Ext]) d = some d1)) := by
  unfold attachMedia locate at h
  simp only [hh, ne_eq, not_false_eq_true, ↓reduceIte] at h
  by_cases hlen : (mediaAt app id).Hash.length < 2
  · simp [hlen] at h
  · simp only [hlen, ↓reduceIte] at h
    by_cases hex : d.read (Join [app.DstDir, mediaBase, Itoa id ++ (mediaAt app id).Ext]) = none
    · simp only [hex, ↓reduceIte, check] at h
      cases hc : copyFile
          (Join [app.SrcDir, List.take 2 (mediaAt app id).Hash, (mediaAt app id).Hash])
          (Join [app.DstDir, mediaBase, Itoa id ++ (mediaAt app id).Ext]) d with
      | none => simp [hc] at h
      | some d2 =>
        simp only [hc, Except.ok.injEq, Prod.mk.injEq] at h
        obtain ⟨rfl, rfl⟩ := h
        exact ⟨rfl, by omega, Or.inr ⟨hex, rfl⟩⟩
    · simp only [hex, ↓reduceIte, Except.ok.injEq, Prod.mk.injEq] at h
      obtain ⟨rfl, rfl⟩ := h
      exact ⟨rfl, by omega, Or.inl ⟨hex, rfl⟩⟩

/-- The loop body as the media block followed by the date block, on the message that
carries the sender key, the text and the name as scanned. -/
theorem resolveRow_eq (lz : Int → Int) (app : App) (mediaBase : GoString)
    (row : MessageRow) (d : Disk) :
    resolveRow lz app mediaBase row d =
      match (match (scanMessage row).1.mediaID with
        | some id => attachMedia app mediaBase id
            { JID := (scanMessage row).1.JID, Text := (scanMessage row).1.text.getD [],
              Name := (scanMessage row).1.name.getD [] } d
        | none =>
          .ok ({ JID := (scanMessage row).1.JID, Text := (scanMessage row).1.text.getD [],
                 Name := (scanMessage row).1.name.getD [] }, d)) with
      | .error e => .error e
      | .ok (msg, d1) =>
        .ok ({ (setDate lz (scanMessage row).1.date msg) with
                IsGroup := (scanMessage row).1.group.isSome }, d1) := by
  unfold resolveRow
  generalize (scanMessage row).1 = v
  obtain ⟨jid, name, text, mediaID, date, group⟩ := v
  cases text <;> cases name <;> rfl

theorem sessionLoop_forall₂ (lz : Int → Int) (app : App) (mediaBase : GoString)
    (P : MessageRow → Message → Prop)
    (hP : ∀ row d m d1, resolveRow lz app mediaBase row d = .ok (m, d1) → P row m)
    (rows : List MessageRow) (acc out : List Message) (d d1 : Disk)
    (h : sessionLoop lz app mediaBase rows acc d = .ok (out, d1)) :
    ∃ msgs, out = acc ++ msgs ∧ List.Forall₂ P rows msgs := by
  induction rows generalizing acc d with
  | nil =>
    simp only [sessionLoop, Except.ok.injEq, Prod.mk.injEq] at h
    exact ⟨[], by simp [h.1], List.Forall₂.nil⟩
  | cons row rows ih =>
    unfold sessionLoop at h
    split at h
    · simp at h
    · rename_i m d2 hrow
      obtain ⟨msgs, hout, hall⟩ := ih _ _ h
      exact ⟨m :: msgs, by simp [hout], List.Forall₂.cons (hP row d m d2 hrow) hall⟩

theorem sessionLoop_append (lz : Int → Int) (app : App) (mediaBase : GoString)
    (rows rows2 : List MessageRow) (acc out : List Message) (d d1 : Disk)
    (h : sessionLoop lz app mediaBase rows acc d = .ok (out, d1)) :
    sessionLoop lz app mediaBase (rows ++ rows2) acc d =
      sessionLoop lz app mediaBase rows2 out d1 := by
  induction rows generalizing acc d with
  | nil =>
    simp only [sessionLoop, Except.ok.injEq, Prod.mk.injEq] at h
    obtain ⟨rfl, rfl⟩ := h
    rfl
  | cons row rows ih =>
    unfold sessionLoop at h
    split at h
    · simp at h
    · rename_i m d2 hrow
      simp only [List.cons_append, sessionLoop, hrow]
      exact ih _ _ h

theorem SessionMessages_eq (lz : Int → Int) (app : App) (session : Session)
    (rows : List MessageRow) (d : Disk) (msgs : List Message) (d1 : Disk)
    (h : SessionMessages lz app session rows d = .ok (msgs, d1)) :
    Join [app.DstDir, Join [ascii "media", Itoa session.ID]] ∉ d.blocked ∧
    sessionLoop lz app (Join [ascii "media", Itoa session.ID]) rows [] d = .ok (msgs, d1) := by
  unfold SessionMessages MkdirAll check at h
  by_cases hb : Join [app.DstDir, Join [ascii "media", Itoa session.ID]] ∈ d.blocked
  · simp [hb] at h
  · simp only [hb, ↓reduceIte] at h
    exact ⟨hb, h⟩

theorem SessionMessages_of_loop (lz : Int → Int) (app : App) (session : Session)
    (rows : List MessageRow) (d : Disk)
    (hb : Join [app.DstDir, Join [ascii "media", Itoa session.ID]] ∉ d.blocked) :
    SessionMessages lz app session rows d =
      sessionLoop lz app (Join [ascii "media", Itoa session.ID]) rows [] d := by
  unfold SessionMessages MkdirAll check
  simp only [hb, ↓reduceIte]

theorem scanMessage_int (row : MessageRow) (id : Int) (h : row.ZMEDIAITEM = .int id) :
    scanMessage row =
      ({ JID := row.ZFROMJID, name := row.ZPUSHNAME, text := row.ZTEXT, mediaID := some id,
         date := row.ZMESSAGEDATE, group := row.ZGROUPMEMBER }, false) := by
  simp [scanMessage, h]

theorem scanMessage_text (row : MessageRow) : (scanMessage row).1.text = row.ZTEXT := by
  unfold scanMessage
  split <;> rfl

theorem resolveRow_media (lz : Int → Int) (app : App) (mediaBase : GoString)
    (row : MessageRow) (d d1 : Disk) (m : Message) (id : Int)
    (h : resolveRow lz app mediaBase row d = .ok (m, d1))
    (hid : (scanMessage row).1.mediaID = some id) (hh : (mediaAt app id).Hash ≠ []) :
    m.Media = Join [mediaBase, Itoa id ++ (mediaAt app id).Ext] ∧
    m.MediaExt = (mediaAt app id).Ext ∧ m.Text = (mediaAt app id).Title ∧
    2 ≤ (mediaAt app id).Hash.length ∧
    ((d.read (Join [app.DstDir, mediaBase, Itoa id ++ (mediaAt app id).Ext]) ≠ none ∧
        d1 = d) ∨
      (d.read (Join [app.DstDir, mediaBase, Itoa id ++ (mediaAt app id).Ext]) = none ∧
        copyFile (Join [app.SrcDir, (mediaAt app id).Hash.take 2, (mediaAt app id).Hash])
          (Join [app.DstDir, mediaBase, Itoa id ++ (mediaAt app id).Ext]) d = some d1)) := by
  rw [resolveRow_eq] at h
  simp only [hid] at h
  split at h
  · simp at h
  · rename_i m0 d0 hatt
    simp only [Except.ok.injEq, Prod.mk.injEq] at h
    obtain ⟨rfl, rfl⟩ := h
    obtain ⟨hm, hlen, hdisk⟩ := attachMedia_ok app mediaBase id _ m0 d d0 hh hatt
    have ho := setDate_other lz (scanMessage row).1.date m0
    refine ⟨?_, ?_, ?_, hlen, hdisk⟩
    · show (setDate lz (scanMessage row).1.date m0).Media = _
      rw [ho.2.2.2.1, hm]
    · show (setDate lz (scanMessage row).1.date m0).MediaExt = _
      rw [ho.2.2.2.2.1, hm]
    · show (setDate lz (scanMessage row).1.date m0).Text = _
      rw [ho.2.2.1, hm]

theorem resolveRow_unresolved (lz : Int → Int) (app : App) (mediaBase : GoString)
    (row : MessageRow) (d : Disk)
    (hid : (scanMessage row).1.mediaID = none ∨
      ∃ id, (scanMessage row).1.mediaID = some id ∧ (mediaAt app id).Hash = []) :
    ∃ m, resolveRow lz app mediaBase row d = .ok (m, d) ∧ m.Media = [] ∧ m.MediaExt = [] ∧
      m.Text = (scanMessage row).1.text.getD [] ∧
      m.Date = (setDate lz (scanMessage row).1.date {}).Date := by
  rw [resolveRow_eq]
  have key : ∀ m0 : Message, m0.Media = [] → m0.MediaExt = [] → m0.Date = [] →
      m0.Text = (scanMessage row).1.text.getD [] →
      ∃ m, (Except.ok ({ (setDate lz (scanMessage row).1.date m0) with
          IsGroup := (scanMessage row).1.group.isSome }, d) : Except Abort (Message × Disk)) =
          .ok (m, d) ∧ m.Media = [] ∧ m.MediaExt = [] ∧
        m.Text = (scanMessage row).1.text.getD [] ∧
        m.Date = (setDate lz (scanMessage row).1.date {}).Date := by
    intro m0 h1 h2 h3 h4
    have ho := setDate_other lz (scanMessage row).1.date m0
    refine ⟨_, rfl, ?_, ?_, ?_, ?_⟩
    · show (setDate lz (scanMessage row).1.date m0).Media = _
      rw [ho.2.2.2.1, h1]
    · show (setDate lz (scanMessage row).1.date m0).MediaExt = _
      rw [ho.2.2.2.2.1, h2]
    · show (setDate lz (scanMessage row).1.date m0).Text = _
      rw [ho.2.2.1, h4]
    · show (setDate lz (scanMessage row).1.date m0).Date = _
      unfold setDate
      split
      · exact h3
      · split
        · exact h3
        · rfl
  rcases hid with hnone | ⟨id, hsome, hh⟩
  · simp only [hnone]
    exact key _ rfl rfl rfl rfl
  · simp only [hsome, attachMedia_unresolved app mediaBase id _ d hh]
    exact key _ rfl rfl rfl rfl

theorem attachMedia_succeeds (app : App) (mediaBase : GoString) (id : Int) (msg : Message)
    (d : Disk) (hlen : 2 ≤ (mediaAt app id).Hash.length)
    (hfile : d.read (Join [app.DstDir, mediaBase, Itoa id ++ (mediaAt app id).Ext]) ≠ none ∨
      d.read (Join [app.SrcDir, (mediaAt app id).Hash.take 2, (mediaAt app id).Hash]) ≠ none) :
    ∃ m d2, attachMedia app mediaBase id msg d = .ok (m, d2) := by
  have hh : (mediaAt app id).Hash ≠ [] := by
    intro e; rw [e] at hlen; simp at hlen
  have hl : ¬ (mediaAt app id).Hash.length < 2 := by omega
  unfold attachMedia locate
  simp only [hh, ne_eq, not_false_eq_true, ↓reduceIte, hl]
  by_cases hex : d.read (Join [app.DstDir, mediaBase, Itoa id ++ (mediaAt app id).Ext]) = none
  · simp only [hex, ↓reduceIte]
    rcases hfile with h | h
    · exact absurd hex h
    · cases hs : d.read
          (Join [app.SrcDir, (mediaAt app id).Hash.take 2, (mediaAt app id).Hash]) with
      | none => exact absurd hs h
      | some content => simp [copyFile, hs, check]
  · simp [hex]

theorem resolveRow_succeeds (lz : Int → Int) (app : App) (mediaBase : GoString)
    (row : MessageRow) (d : Disk) (id : Int)
    (hid : (scanMessage row).1.mediaID = some id)
    (hlen : 2 ≤ (mediaAt app id).Hash.length)
    (hfile : d.read (Join [app.DstDir, mediaBase, Itoa id ++ (mediaAt app id).Ext]) ≠ none ∨
      d.read (Join [app.SrcDir, (mediaAt app id).Hash.take 2, (mediaAt app id).Hash]) ≠ none) :
    ∃ m d2, resolveRow lz app mediaBase row d = .ok (m, d2) := by
  rw [resolveRow_eq]
  simp only [hid]
  obtain ⟨m, d2, h⟩ := attachMedia_succeeds app mediaBase id
    { JID := (scanMessage row).1.JID, Text := (scanMessage row).1.text.getD [],
      Name := (scanMessage row).1.name.getD [] } d hlen hfile
  rw [h]
  exact ⟨_, _, rfl⟩

theorem mediaAt_entry (app : App) (id : Int) (hh : (mediaAt app id).Hash ≠ []) :
    find id app.MediaMap = some (mediaAt app id) := by
  unfold mediaAt at hh ⊢
  cases hf : find id app.MediaMap with
  | none => simp [hf] at hh
  | some m => simp

theorem sessionLoop_snoc (lz : Int → Int) (app : App) (mediaBase : GoString)
    (rows : List MessageRow) (row : MessageRow) (msgs : List Message) (m : Message)
    (d d1 d2 : Disk) (h : sessionLoop lz app mediaBase rows [] d = .ok (msgs, d1))
    (hrow : resolveRow lz app mediaBase row d1 = .ok (m, d2)) :
    sessionLoop lz app mediaBase (rows ++ [row]) [] d = .ok (msgs ++ [m], d2) := by
  rw [sessionLoop_append lz app mediaBase rows [row] [] msgs d d1 h]
  simp [sessionLoop, hrow]

theorem SessionMessages_snoc (lz : Int → Int) (app : App) (session : Session)
    (rows : List MessageRow) (row : MessageRow) (msgs : List Message) (m : Message)
    (d d1 d2 : Disk) (h : SessionMessages lz app session rows d = .ok (msgs, d1))
    (hrow : resolveRow lz app (Join [ascii "media", Itoa session.ID]) row d1 = .ok (m, d2)) :
    SessionMessages lz app session (rows ++ [row]) d = .ok (msgs ++ [m], d2) := by
  obtain ⟨hb, hloop⟩ := SessionMessages_eq lz app session rows d msgs d1 h
  rw [SessionMessages_of_loop lz app session _ d hb]
  exact sessionLoop_snoc lz app _ rows row msgs m d d1 d2 hloop hrow

theorem Keeps.refl (d : Disk) : Keeps d d := fun _ _ h => h

theorem Keeps.trans {d d1 d2 : Disk} (h1 : Keeps d d1) (h2 : Keeps d1 d2) : Keeps d d2 :=
  fun p c h => h2 p c (h1 p c h)

theorem Keeps.ne_none {d d1 : Disk} (h : Keeps d d1) (p : GoString) (hp : d.read p ≠ none) :
    d1.read p ≠ none := by
  cases hr : d.read p with
  | none => exact absurd hr hp
  | some c => rw [h p c hr]; simp

theorem copyFile_disk (src dst : GoString) (d d1 : Disk) (h : copyFile src dst d = some d1)
    (hdst : d.read dst = none) :
    Keeps d d1 ∧ d1.blocked = d.blocked ∧ d1.copied = d.copied ++ [(src, dst)] ∧
      d1.read dst ≠ none ∧ d1.read dst = d.read src := by
  unfold copyFile at h
  split at h
  · simp at h
  · rename_i content hsrc
    simp only [Option.some.injEq] at h
    subst h
    refine ⟨?_, rfl, rfl, ?_, ?_⟩
    · intro p c hp
      simp only [Disk.read, find]
      split
      · rename_i heq
        rw [heq] at hdst
        rw [hdst] at hp
        cases hp
      · exact hp
    · simp [Disk.read, find]
    · rw [hsrc]
      simp [Disk.read, find]

theorem attachMedia_disk (app : App) (mediaBase : GoString) (id : Int) (msg m : Message)
    (d d1 : Disk) (h : attachMedia app mediaBase id msg d = .ok (m, d1)) :
    Keeps d d1 ∧ d1.blocked = d.blocked ∧
    (d1 = d ∨
      (d1.copied = d.copied ++ [mediaCopy app mediaBase id] ∧
        d.read (mediaCopy app mediaBase id).2 = none ∧
        d1.read (mediaCopy app mediaBase id).2 ≠ none ∧
        d1.read (mediaCopy app mediaBase id).2 = d.read (mediaCopy app mediaBase id).1)) ∧
    ∀ d2, Keeps d1 d2 → attachMedia app mediaBase id msg d2 = .ok (m, d2) := by
  by_cases hh : (mediaAt app id).Hash = []
  · rw [attachMedia_unresolved app mediaBase id msg d hh] at h
    simp only [Except.ok.injEq, Prod.mk.injEq] at h
    obtain ⟨rfl, rfl⟩ := h
    exact ⟨Keeps.refl _, rfl, Or.inl rfl,
      fun d2 _ => attachMedia_unresolved app mediaBase id _ d2 hh⟩
  · obtain ⟨hm, hlen, hdisk⟩ := attachMedia_ok app mediaBase id msg m d d1 hh h
    have hl : ¬ (mediaAt app id).Hash.length < 2 := by omega
    have again : ∀ d2, d2.read (Join [app.DstDir, mediaBase, Itoa id ++ (mediaAt app id).Ext])
        ≠ none → attachMedia app mediaBase id msg d2 = .ok (m, d2) := by
      intro d2 hex
      unfold attachMedia locate
      simp only [hh, ne_eq, not_false_eq_true, ↓reduceIte, hl, hex, hm]
    rcases hdisk with ⟨hex, rfl⟩ | ⟨hex, hcopy⟩
    · exact ⟨Keeps.refl _, rfl, Or.inl rfl, fun d2 hk => again d2 (hk.ne_none _ hex)⟩
    · obtain ⟨hk, hb, hc, hnew, hcont⟩ := copyFile_disk _ _ d d1 hcopy hex
      exact ⟨hk, hb, Or.inr ⟨hc, hex, hnew, hcont⟩,
        fun d2 hk2 => again d2 (hk2.ne_none _ hnew)⟩

theorem resolveRow_disk (lz : Int → Int) (app : App) (mediaBase : GoString)
    (row : MessageRow) (d d1 : Disk) (m : Message)
    (h : resolveRow lz app mediaBase row d = .ok (m, d1)) :
    Keeps d d1 ∧ d1.blocked = d.blocked ∧
    (d1 = d ∨ ∃ id, (scanMessage row).1.mediaID = some id ∧
      d1.copied = d.copied ++ [mediaCopy app mediaBase id] ∧
      d.read (mediaCopy app mediaBase id).2 = none ∧
      d1.read (mediaCopy app mediaBase id).2 ≠ none ∧
      d1.read (mediaCopy app mediaBase id).2 = d.read (mediaCopy app mediaBase id).1) ∧
    ∀ d2, Keeps d1 d2 → resolveRow lz app mediaBase row d2 = .ok (m, d2) := by
  rw [resolveRow_eq] at h
  cases hid : (scanMessage row).1.mediaID with
  | none =>
    simp only [hid, Except.ok.injEq, Prod.mk.injEq] at h
    obtain ⟨rfl, rfl⟩ := h
    refine ⟨Keeps.refl _, rfl, Or.inl rfl, fun d2 _ => ?_⟩
    rw [resolveRow_eq]
    simp only [hid]
  | some id =>
    simp only [hid] at h
    split at h
    · simp at h
    · rename_i m0 d0 hatt
      simp only [Except.ok.injEq, Prod.mk.injEq] at h
      obtain ⟨rfl, rfl⟩ := h
      obtain ⟨hk, hb, hc, hre⟩ := attachMedia_disk app mediaBase id _ m0 d d0 hatt
      refine ⟨hk, hb, ?_, fun d2 hk2 => ?_⟩
      · rcases hc with hc | hc
        · exact Or.inl hc
        · exact Or.inr ⟨id, rfl, hc⟩
      · rw [resolveRow_eq]
        simp only [hid, hre d2 hk2]

theorem sessionLoop_disk (lz : Int → Int) (app : App) (mediaBase : GoString)
    (rows : List MessageRow) (acc out : List Message) (d d1 : Disk)
    (h : sessionLoop lz app mediaBase rows acc d = .ok (out, d1)) :
    Keeps d d1 ∧ d1.blocked = d.blocked ∧
    (∃ new, d1.copied = d.copied ++ new ∧
      (∀ st ∈ new, d.read st.2 = none ∧ d1.read st.2 ≠ none ∧
        (∀ c, d.read st.1 = some c → d1.read st.2 = some c) ∧
        ∃ row ∈ rows, ∃ id, (scanMessage row).1.mediaID = some id ∧
          st = mediaCopy app mediaBase id) ∧
      (new.map Prod.snd).Nodup) ∧
    ∃ msgs, out = acc ++ msgs ∧
      ∀ d2 acc2, Keeps d1 d2 →
        sessionLoop lz app mediaBase rows acc2 d2 = .ok (acc2 ++ msgs, d2) := by
  induction rows generalizing acc d with
  | nil =>
    simp only [sessionLoop, Except.ok.injEq, Prod.mk.injEq] at h
    obtain ⟨rfl, rfl⟩ := h
    exact ⟨Keeps.refl _, rfl, ⟨[], by simp, by simp, by simp⟩, [], by simp,
      fun d2 acc2 _ => by simp [sessionLoop]⟩
  | cons row rows ih =>
    unfold sessionLoop at h
    split at h
    · simp at h
    · rename_i m d0 hrow
      obtain ⟨hk1, hb1, hc1, hre1⟩ := resolveRow_disk lz app mediaBase row d d0 m hrow
      obtain ⟨hk2, hb2, ⟨new, hnew, hnone, hnodup⟩, msgs, hout, hre2⟩ := ih _ _ h
      refine ⟨hk1.trans hk2, hb2.trans hb1, ?_, m :: msgs, by simp [hout], ?_⟩
      · rcases hc1 with rfl | ⟨id, hid, hc, hs, ht, hcont⟩
        · refine ⟨new, hnew, ?_, hnodup⟩
          intro st hst
          obtain ⟨q1, q2, q3, r, hr, q4⟩ := hnone st hst
          exact ⟨q1, q2, q3, r, by simp [hr], q4⟩
        · refine ⟨mediaCopy app mediaBase id :: new, by rw [hnew, hc]; simp, ?_, ?_⟩
          · intro st hst
            simp only [List.mem_cons] at hst
            rcases hst with rfl | hst
            · refine ⟨hs, hk2.ne_none _ ht, ?_, row, by simp, id, hid, rfl⟩
              intro c hc0
              apply hk2
              rw [hcont, hc0]
            · obtain ⟨q1, q2, q3, r, hr, q4⟩ := hnone st hst
              refine ⟨?_, q2, ?_, r, by simp [hr], q4⟩
              · by_contra hne
                exact hk1.ne_none _ hne q1
              · intro c hc0
                exact q3 c (hk1 _ _ hc0)
          · simp only [List.map_cons, List.nodup_cons]
            refine ⟨?_, hnodup⟩
            intro hmem
            obtain ⟨st, hst, hst2⟩ := List.mem_map.mp hmem
            have := (hnone st hst).1
            rw [hst2] at this
            exact ht this
      · intro d2 acc2 hk
        simp only [sessionLoop, hre1 d2 (hk2.trans hk)]
        rw [hre2 d2 (acc2 ++ [m]) hk]
        simp

theorem resolveRow_date (lz : Int → Int) (app : App) (mediaBase : GoString)
    (row : MessageRow) (d d1 : Disk) (m : Message)
    (h : resolveRow lz app mediaBase row d = .ok (m, d1)) :
    (∀ text unix, (scanMessage row).1.date = some text → parseRFC3339 text = some unix →
      m.Date = formatRFC3339 (lz (unix + 978307200)) (unix + 978307200)) ∧
    (((scanMessage row).1.date = none ∨
        ∃ text, (scanMessage row).1.date = some text ∧ parseRFC3339 text = none) →
      m.Date = []) := by
  rw [resolveRow_eq] at h
  have key : ∀ m0 : Message, m0.Date = [] →
      m = { (setDate lz (scanMessage row).1.date m0) with
            IsGroup := (scanMessage row).1.group.isSome } →
      (∀ text unix, (scanMessage row).1.date = some text → parseRFC3339 text = some unix →
        m.Date = formatRFC3339 (lz (unix + 978307200)) (unix + 978307200)) ∧
      (((scanMessage row).1.date = none ∨
          ∃ text, (scanMessage row).1.date = some text ∧ parseRFC3339 text = none) →
        m.Date = []) := by
    intro m0 h0 hm
    subst hm
    constructor
    · intro text unix ht hp
      show (setDate lz (scanMessage row).1.date m0).Date = _
      rw [ht, setDate_parsed lz text unix m0 hp]
    · intro hun
      show (setDate lz (scanMessage row).1.date m0).Date = _
      rw [setDate_unparsed lz _ m0 hun, h0]
  cases hid : (scanMessage row).1.mediaID with
  | none =>
    simp only [hid, Except.ok.injEq, Prod.mk.injEq] at h
    exact key _ rfl h.1.symm
  | some id =>
    simp only [hid] at h
    split at h
    · simp at h
    · rename_i m0 d0 hatt
      simp only [Except.ok.injEq, Prod.mk.injEq] at h
      by_cases hh : (mediaAt app id).Hash = []
      · rw [attachMedia_unresolved app mediaBase id _ d hh] at hatt
        simp only [Except.ok.injEq, Prod.mk.injEq] at hatt
        exact key m0 (by rw [← hatt.1]) h.1.symm
      · obtain ⟨hm, _, _⟩ := attachMedia_ok app mediaBase id _ m0 d d0 hh hatt
        exact key m0 (by rw [hm]) h.1.symm

theorem scanMessage_date (row : MessageRow) (h : (scanMessage row).2 = false) :
    (scanMessage row).1.date = row.ZMESSAGEDATE := by
  unfold scanMessage at h ⊢
  split <;> simp_all

theorem attachMedia_error (app : App) (mediaBase : GoString) (id : Int) (msg : Message)
    (d : Disk) (e : Abort) (h : attachMedia app mediaBase id msg d = .error e) :
    (mediaAt app id).Hash ≠ [] ∧ (e = .sliceOutOfRange ∨ e = .fatal "Copy media") := by
  by_cases hh : (mediaAt app id).Hash = []
  · rw [attachMedia_unresolved app mediaBase id msg d hh] at h
    simp at h
  · refine ⟨hh, ?_⟩
    unfold attachMedia locate at h
    simp only [hh, ne_eq, not_false_eq_true, ↓reduceIte] at h
    by_cases hlen : (mediaAt app id).Hash.length < 2
    · simp only [hlen, ↓reduceIte, Except.error.injEq] at h
      exact Or.inl h.symm
    · simp only [hlen, ↓reduceIte] at h
      by_cases hex : d.read (Join [app.DstDir, mediaBase, Itoa id ++ (mediaAt app id).Ext]) = none
      · simp only [hex, ↓reduceIte, check] at h
        cases hc : copyFile (Join [app.SrcDir, List.take 2 (mediaAt app id).Hash,
            (mediaAt app id).Hash])
            (Join [app.DstDir, mediaBase, Itoa id ++ (mediaAt app id).Ext]) d with
        | none =>
          simp only [hc, Except.error.injEq] at h
          exact Or.inr h.symm
        | some d2 => simp [hc] at h
      · simp [hex] at h

theorem resolveRow_error (lz : Int → Int) (app : App) (mediaBase : GoString)
    (row : MessageRow) (d : Disk) (e : Abort)
    (h : resolveRow lz app mediaBase row d = .error e) :
    ∃ id, (scanMessage row).1.mediaID = some id ∧ (mediaAt app id).Hash ≠ [] ∧
      (e = .sliceOutOfRange ∨ e = .fatal "Copy media") := by
  rw [resolveRow_eq] at h
  cases hid : (scanMessage row).1.mediaID with
  | none => simp [hid] at h
  | some id =>
    simp only [hid] at h
    split at h
    · rename_i e0 hatt
      simp only [Except.error.injEq] at h
      subst h
      obtain ⟨h1, h2⟩ := attachMedia_error app mediaBase id _ d _ hatt
      exact ⟨id, rfl, h1, h2⟩
    · simp at h

/-! ## Facts about the printed date -/

theorem appendInt_last (k : Nat) (hk : k < 60) :
    (appendInt (k : Int) 2).getLast? ≠ some 90 ∧ appendInt (k : Int) 2 ≠ [] := by
  revert k
  decide

theorem formatZone_last (offset : Int) (h : offset ≠ 0) :
    (formatZone offset).getLast? ≠ some 90 ∧ formatZone offset ≠ [] := by
  unfold formatZone
  simp only [h, ↓reduceIte]
  have hk := appendInt_last ((Int.tdiv offset 60).natAbs % 60) (Nat.mod_lt _ (by decide))
  refine ⟨?_, by simp⟩
  have e : ∀ (s : UInt8) (a b : GoString), s :: (a ++ 58 :: b) = (s :: a ++ [58]) ++ b := by
    intro s a b; simp
  rw [e, List.getLast?_append_of_ne_nil _ hk.2]
  exact hk.1

theorem formatRFC3339_last (offset unix : Int) (h : offset ≠ 0) :
    (formatRFC3339 offset unix).getLast? ≠ some 90 := by
  have hz := formatZone_last offset h
  have e : ∀ (a b c d e f z : GoString),
      a ++ 45 :: b ++ 45 :: c ++ 84 :: d ++ 58 :: e ++ 58 :: f ++ z =
        (a ++ 45 :: b ++ 45 :: c ++ 84 :: d ++ 58 :: e ++ 58 :: f) ++ z := by
    intro a b c d e f z; simp
  unfold formatRFC3339
  simp only
  rw [e, List.getLast?_append_of_ne_nil _ hz.2]
  exact hz.1

theorem dateRow_run (lz : Int → Int) (app : App) (session : Session) (d d1 : Disk)
    (msgs : List Message) (h : SessionMessages lz app session [dateRow] d = .ok (msgs, d1)) :
    msgs = [{ Date := formatRFC3339 (lz 2556144000) 2556144000 }] ∧ d1 = d := by
  have hp : parseRFC3339 (ascii "2020-01-01T00:00:00Z") = some 1577836800 := by decide
  obtain ⟨_, hloop⟩ := SessionMessages_eq lz app session _ d msgs d1 h
  have hrow : resolveRow lz app (Join [ascii "media", Itoa session.ID]) dateRow d =
      .ok ({ Date := formatRFC3339 (lz 2556144000) 2556144000 }, d) := by
    rw [resolveRow_eq]
    have e : (1577836800 : Int) + 978307200 = 2556144000 := by decide
    simp [scanMessage, dateRow, setDate, hp, e]
  simp only [sessionLoop, hrow, List.nil_append, Except.ok.injEq, Prod.mk.injEq] at hloop
  exact ⟨hloop.1.symm, hloop.2.symm⟩

/-! ## Facts about `GetSessions` and the path index -/

theorem scanSession_toRow (s : Session) : scanSession s.toRow = some s := rfl

theorem getSessionsLoop_rows (ss css : List Session) :
    getSessionsLoop (ss.map Session.toRow) css =
      some (css ++ ss.filter (fun s => !HasSuffix s.CID (ascii "@status"))) := by
  induction ss generalizing css with
  | nil => simp [getSessionsLoop]
  | cons s ss ih =>
    simp only [List.map_cons, getSessionsLoop, scanSession_toRow]
    by_cases h : HasSuffix s.CID (ascii "@status") = true
    · simp only [h, ↓reduceIte]
      rw [ih, List.filter_cons_of_neg (by simp [h])]
    · simp only [h, Bool.false_eq_true, ↓reduceIte]
      rw [ih, List.filter_cons_of_pos (by simp [h])]
      simp

theorem scanSession_some (row : SessionRow) (cs : Session) (h : scanSession row = some cs) :
    row = cs.toRow := by
  obtain ⟨pk, cid, name⟩ := row
  cases pk <;> cases cid <;> cases name <;> simp [scanSession] at h
  subst h
  rfl

theorem getSessionsLoop_scanned (rows : List SessionRow) (css out : List Session)
    (h : getSessionsLoop rows css = some out) :
    ∃ ss : List Session, rows = ss.map Session.toRow := by
  induction rows generalizing css with
  | nil => exact ⟨[], rfl⟩
  | cons row rows ih =>
    cases hcs : scanSession row with
    | none => simp [getSessionsLoop, hcs] at h
    | some cs =>
      have hrow := scanSession_some row cs hcs
      simp only [getSessionsLoop, hcs] at h
      by_cases hk : HasSuffix cs.CID (ascii "@status") = true
      · simp only [hk, ↓reduceIte] at h
        obtain ⟨ss, hss⟩ := ih _ h
        exact ⟨cs :: ss, by simp [hrow, hss]⟩
      · simp only [hk, Bool.false_eq_true, ↓reduceIte] at h
        obtain ⟨ss, hss⟩ := ih _ h
        exact ⟨cs :: ss, by simp [hrow, hss]⟩

theorem loadHashMap_find (manifest : List ManifestRow) (acc hashMap : List (GoString × GoString))
    (h : loadHashMap manifest acc = .ok hashMap) (key : GoString) :
    (∀ hash, find key hashMap = some hash →
      find key acc = some hash ∨
        ∃ row ∈ manifest, row.relativePath = some key ∧ row.fileID = some hash) ∧
    (find key hashMap = none →
      find key acc = none ∧ ∀ row ∈ manifest, row.relativePath ≠ some key) := by
  induction manifest generalizing acc with
  | nil =>
    simp only [loadHashMap, Except.ok.injEq] at h
    subst h
    simp
  | cons row rows ih =>
    unfold loadHashMap at h
    split at h
    · rename_i path hash hp hf
      obtain ⟨ih1, ih2⟩ := ih _ h
      constructor
      · intro hash0 hfind
        rcases ih1 hash0 hfind with h1 | ⟨r, hr, h2⟩
        · simp only [find] at h1
          split at h1
          · rename_i heq
            simp only [Option.some.injEq] at h1
            exact Or.inr ⟨row, by simp, by rw [hp, heq], by rw [hf, h1]⟩
          · exact Or.inl h1
        · exact Or.inr ⟨r, by simp [hr], h2⟩
      · intro hnone
        obtain ⟨h1, h2⟩ := ih2 hnone
        simp only [find] at h1
        split at h1
        · simp at h1
        · rename_i hne
          refine ⟨h1, ?_⟩
          intro r hr
          simp only [List.mem_cons] at hr
          rcases hr with rfl | hr
          · rw [hp]
            intro e
            simp only [Option.some.injEq] at e
            exact hne e
          · exact h2 r hr
    · simp at h

theorem mediaKey_relative (p : GoString) (h : HasPrefix p (ascii "/") = false) :
    mediaKey p = ascii "Message/" ++ p := by
  simp [mediaKey, h]

theorem mediaKey_rooted (p : GoString) :
    mediaKey (ascii "/" ++ p) = ascii "Message/" ++ p := by
  have h : HasPrefix (ascii "/" ++ p) (ascii "/") = true := by
    have e : ascii "/" = [slash] := by decide
    simp [HasPrefix, e, List.isPrefixOf]
  have e : ascii "Message/" = ascii "Message" ++ ascii "/" := by decide
  simp [mediaKey, h, e]

theorem loadMedia_keeps (hashMap : List (GoString × GoString)) (rows : List MediaRow)
    (mediaMap out : List (Int × Media)) (h : loadMedia hashMap rows mediaMap = .ok out)
    (id : Int) (hm : ∃ m, find id mediaMap = some m) : ∃ m, find id out = some m := by
  induction rows generalizing mediaMap with
  | nil =>
    simp only [loadMedia, Except.ok.injEq] at h
    subst h
    exact hm
  | cons row rows ih =>
    unfold loadMedia at h
    split at h
    · split at h
      · exact ih _ h hm
      · apply ih _ h
        simp only [find]
        split
        · exact ⟨_, rfl⟩
        · exact hm
    · simp at h

theorem loadMedia_mem (hashMap : List (GoString × GoString)) (rows : List MediaRow)
    (mediaMap out : List (Int × Media)) (h : loadMedia hashMap rows mediaMap = .ok out)
    (row : MediaRow) (hrow : row ∈ rows) (id : Int) (path : GoString)
    (hpk : row.Z_PK = .int id) (hpath : row.ZMEDIALOCALPATH = some path) :
    ∃ m, find id out = some m := by
  induction rows generalizing mediaMap with
  | nil => simp at hrow
  | cons r rows ih =>
    simp only [List.mem_cons] at hrow
    unfold loadMedia at h
    rcases hrow with rfl | hrow
    · simp only [hpk, hpath] at h
      exact loadMedia_keeps hashMap rows _ out h id (by simp [find])
    · split at h
      · split at h
        · exact ih _ h hrow
        · exact ih _ h hrow
      · simp at h

theorem LoadMediaMap_row (src dst : GoString) (manifest : List ManifestRow)
    (media : List MediaRow) (app : App)
    (h : LoadMediaMap (NewApp src dst) manifest media = .ok app)
    (hkey : ∀ r ∈ media, ∀ r2 ∈ media, r.Z_PK = r2.Z_PK → r = r2)
    (id : Int) (path : GoString) (title : Option GoString)
    (hrow : { Z_PK := .int id, ZMEDIALOCALPATH := some path, ZTITLE := title } ∈ media) :
    ∃ hashMap, loadHashMap manifest [] = .ok hashMap ∧
      mediaAt app id = mediaOf hashMap path title := by
  have hfind : ∃ m, find id app.MediaMap = some m := by
    unfold LoadMediaMap at h
    split at h
    · simp at h
    · split at h
      · simp at h
      · rename_i mediaMap hmedia
        simp only [Except.ok.injEq] at h
        subst h
        exact loadMedia_mem _ media _ mediaMap hmedia _ hrow id path rfl rfl
  obtain ⟨m, hm⟩ := hfind
  obtain ⟨hashMap, hhash, r, hr, p, hpk, hpath, hmeq⟩ :=
    LoadMediaMap_entry src dst manifest media app h id m hm
  have := hkey r hr _ hrow hpk
  subst this
  simp only [Option.some.injEq] at hpath
  subst hpath
  exact ⟨hashMap, hhash, by simp [mediaAt, hm, hmeq]⟩

theorem Join_three (r x y : GoString) (hr : r ≠ []) (hx : x ≠ []) (hy : y ≠ []) :
    Join [r, x, y] = Clean ((r ++ slash :: x) ++ slash :: y) := by
  simp [Join, List.filter, hr, hx, hy, joinSlash]

/-! ## Facts about the loop of `main` and the length of a run -/

theorem mainLoop_sessions (lz : Int → Int) (app : App) (messagesOf : Int → List MessageRow)
    (chatLimit : Int) (rest : List Session) (counter : Int)
    (rendered out : List (Session × List Message)) (d d1 : Disk)
    (h : mainLoop lz app messagesOf chatLimit rest counter rendered d = .ok (out, d1)) :
    (0 < chatLimit → counter ≤ chatLimit →
      out.map Prod.fst =
        rendered.map Prod.fst ++ rest.take ((chatLimit - counter).toNat + 1)) ∧
    (chatLimit ≤ 0 → out.map Prod.fst = rendered.map Prod.fst ++ rest) := by
  induction rest generalizing counter rendered d with
  | nil =>
    simp only [mainLoop, Except.ok.injEq, Prod.mk.injEq] at h
    obtain ⟨rfl, rfl⟩ := h
    simp
  | cons s rest ih =>
    unfold mainLoop at h
    split at h
    · simp at h
    · rename_i messages d2 hs
      simp only at h
      by_cases hc : chatLimit > 0 ∧ counter + 1 > chatLimit
      · simp only [hc, and_self, ↓reduceIte, Except.ok.injEq, Prod.mk.injEq] at h
        obtain ⟨rfl, rfl⟩ := h
        constructor
        · intro _ hle
          have : (chatLimit - counter).toNat = 0 := by omega
          simp [this]
        · intro hle
          omega
      · simp only [hc, ↓reduceIte] at h
        obtain ⟨ih1, ih2⟩ := ih _ _ _ h
        constructor
        · intro hpos hle
          have hle2 : counter + 1 ≤ chatLimit := by
            by_contra hn
            exact hc ⟨hpos, by omega⟩
          rw [ih1 hpos hle2]
          have : (chatLimit - counter).toNat = (chatLimit - (counter + 1)).toNat + 1 := by omega
          rw [this]
          simp
        · intro hle
          rw [ih2 hle]
          simp

theorem SessionMessages_length (lz : Int → Int) (app : App) (session : Session)
    (rows : List MessageRow) (d d1 : Disk) (msgs : List Message)
    (h : SessionMessages lz app session rows d = .ok (msgs, d1)) :
    msgs.length = rows.length := by
  obtain ⟨_, hloop⟩ := SessionMessages_eq lz app session rows d msgs d1 h
  obtain ⟨ms, hms, hall⟩ := sessionLoop_forall₂ lz app _ (fun _ _ => True)
    (fun _ _ _ _ _ => trivial) rows [] msgs d d1 hloop
  simp only [List.nil_append] at hms
  rw [hms, hall.length_eq]

/-! ## The claims -/

/-- C1: in `SessionMessages`, for every message row whose media id is present and whose
descriptor in the catalog built by `LoadMediaMap` has a non-empty hash, the message produced
for the row has `Media` equal to `media/<sessionID>/<mediaID><ext>`, `MediaExt` equal to the
extension of the descriptor and `Text` equal to its title, whatever the text of the row was.
Such a row does produce a message when the hash has two bytes or more and either the
destination file exists or the source file does. -/
theorem SessionMessages_resolved_media (lz : Int → Int) (src dst : GoString)
    (manifest : List ManifestRow) (media : List MediaRow) (app : App) (session : Session)
    (rows : List MessageRow) (d d1 : Disk) (msgs : List Message)
    (hload : LoadMediaMap (NewApp src dst) manifest media = .ok app)
    (hrun : SessionMessages lz app session rows d = .ok (msgs, d1)) :
    List.Forall₂ (fun row m => ∀ id,
        row.ZMEDIAITEM = .int id → (mediaAt app id).Hash ≠ [] →
        m.Media = ascii "media/" ++ Itoa session.ID ++ ascii "/" ++ Itoa id ++
          (mediaAt app id).Ext ∧
        m.MediaExt = (mediaAt app id).Ext ∧ m.Text = (mediaAt app id).Title) rows msgs ∧
    (∀ row id, row.ZMEDIAITEM = .int id → 2 ≤ (mediaAt app id).Hash.length →
      (d1.read (Join [app.DstDir, Join [ascii "media", Itoa session.ID],
          Itoa id ++ (mediaAt app id).Ext]) ≠ none ∨
        d1.read (Join [app.SrcDir, (mediaAt app id).Hash.take 2, (mediaAt app id).Hash])
          ≠ none) →
      ∃ m d2, SessionMessages lz app session (rows ++ [row]) d = .ok (msgs ++ [m], d2)) := by
  obtain ⟨_, hloop⟩ := SessionMessages_eq lz app session rows d msgs d1 hrun
  constructor
  · obtain ⟨ms, hms, hall⟩ := sessionLoop_forall₂ lz app
      (Join [ascii "media", Itoa session.ID])
      (fun row m => ∀ id, row.ZMEDIAITEM = .int id → (mediaAt app id).Hash ≠ [] →
        m.Media = ascii "media/" ++ Itoa session.ID ++ ascii "/" ++ Itoa id ++
          (mediaAt app id).Ext ∧
        m.MediaExt = (mediaAt app id).Ext ∧ m.Text = (mediaAt app id).Title)
      (by
        intro row d0 m d2 hrow id hid hh
        have hs : (scanMessage row).1.mediaID = some id := by rw [scanMessage_int row id hid]
        obtain ⟨h1, h2, h3, _, _⟩ := resolveRow_media lz app _ row d0 d2 m id hrow hs hh
        obtain ⟨hashMap, _, r, _, path, _, _, hm⟩ :=
          LoadMediaMap_entry src dst manifest media app hload id _ (mediaAt_entry app id hh)
        have hext : slash ∉ (mediaAt app id).Ext := by
          rw [hm]
          exact Ext_not_mem path
        refine ⟨?_, h2, h3⟩
        rw [h1, mediaPath_eq session.ID id _ hext])
      rows [] msgs d d1 hloop
    simp only [List.nil_append] at hms
    rw [hms]
    exact hall
  · intro row id hid hlen hfile
    have hs : (scanMessage row).1.mediaID = some id := by rw [scanMessage_int row id hid]
    obtain ⟨m, d2, hrow⟩ := resolveRow_succeeds lz app _ row d1 id hs hlen hfile
    exact ⟨m, d2, SessionMessages_snoc lz app session rows row msgs m d d1 d2 hrun hrow⟩

/-- C1 (witness): the manifest row with hash `ab12` and path `Message/Media/photo.jpg`, the
media row with id 5 and path `Media/photo.jpg` and one message that references media id 5
yield exactly one message, with the extension `.jpg` and the media path `media/7/5.jpg`;
the one copy made is from `src/ab/ab12` to `dst/media/7/5.jpg`. -/
theorem SessionMessages_resolved_media_witness :
    LoadMediaMap (NewApp (ascii "src") (ascii "dst")) exManifest exMedia = .ok exApp ∧
    SessionMessages utc exApp exSession [exRow] exDisk = .ok ([exMsg], exDisk1) ∧
    exMsg.MediaExt = ascii ".jpg" ∧ HasSuffix exMsg.Media (ascii "/5.jpg") = true ∧
    exDisk1.copied = [(ascii "src/ab/ab12", ascii "dst/media/7/5.jpg")] ∧
    exDisk1.read (ascii "dst/media/7/5.jpg") = exDisk.read (ascii "src/ab/ab12") ∧
    List.Forall₂ (fun row m => ∀ id,
        row.ZMEDIAITEM = .int id → (mediaAt exApp id).Hash ≠ [] →
        m.Media = ascii "media/" ++ Itoa exSession.ID ++ ascii "/" ++ Itoa id ++
          (mediaAt exApp id).Ext ∧
        m.MediaExt = (mediaAt exApp id).Ext ∧ m.Text = (mediaAt exApp id).Title)
      [exRow] [exMsg] :=
  ⟨rfl, rfl, rfl, rfl, rfl, rfl,
    (SessionMessages_resolved_media utc (ascii "src") (ascii "dst") exManifest exMedia exApp
      exSession [exRow] exDisk exDisk1 [exMsg] rfl rfl).1⟩

/-- C2: in `SessionMessages`, a message row whose media id is present but whose descriptor
has an empty hash, which includes an id without any catalog entry because every media row
of that id had a null path, produces a message with empty `Media` and `MediaExt` and with
the text of the row, empty when that was null; the run goes on without an error and the
file system, the log of copies included, is as it was before the row. -/
theorem SessionMessages_unresolved_media (lz : Int → Int) (src dst : GoString)
    (manifest : List ManifestRow) (media : List MediaRow) (app : App) (session : Session)
    (rows : List MessageRow) (row : MessageRow) (id : Int) (d d1 : Disk)
    (msgs : List Message)
    (hload : LoadMediaMap (NewApp src dst) manifest media = .ok app)
    (hid : row.ZMEDIAITEM = .int id)
    (hun : (mediaAt app id).Hash = [] ∨
      ∀ r ∈ media, r.Z_PK = .int id → r.ZMEDIALOCALPATH = none)
    (hrun : SessionMessages lz app session rows d = .ok (msgs, d1)) :
    ∃ m, SessionMessages lz app session (rows ++ [row]) d = .ok (msgs ++ [m], d1) ∧
      m.Media = [] ∧ m.MediaExt = [] ∧ m.Text = row.ZTEXT.getD [] := by
  have hh : (mediaAt app id).Hash = [] := by
    rcases hun with h | h
    · exact h
    · by_contra hne
      obtain ⟨_, _, r, hr, path, hpk, hpath, _⟩ :=
        LoadMediaMap_entry src dst manifest media app hload id _ (mediaAt_entry app id hne)
      rw [h r hr hpk] at hpath
      cases hpath
  have hs : (scanMessage row).1.mediaID = some id := by rw [scanMessage_int row id hid]
  obtain ⟨m, hrow, h1, h2, h3, _⟩ := resolveRow_unresolved lz app
    (Join [ascii "media", Itoa session.ID]) row d1 (Or.inr ⟨id, hs, hh⟩)
  refine ⟨m, SessionMessages_snoc lz app session rows row msgs m d d1 d1 hrun hrow, h1, h2, ?_⟩
  rw [h3, scanMessage_text]

/-- C2 (witness): the media row of id 5 has a null path, so the catalog stays empty; the
message row that references id 5 keeps its text `hello` and nothing is copied. -/
theorem SessionMessages_unresolved_media_witness :
    LoadMediaMap (NewApp (ascii "src") (ascii "dst")) exManifest exMediaNoPath =
      .ok (NewApp (ascii "src") (ascii "dst")) ∧
    exRow.ZMEDIAITEM = .int 5 ∧
    (∀ r ∈ exMediaNoPath, r.Z_PK = .int 5 → r.ZMEDIALOCALPATH = none) ∧
    SessionMessages utc (NewApp (ascii "src") (ascii "dst")) exSession [] exDisk =
      .ok ([], exDisk) ∧
    SessionMessages utc (NewApp (ascii "src") (ascii "dst")) exSession [exRow] exDisk =
      .ok ([{ exMsg with Text := ascii "hello", Media := [], MediaExt := [] }], exDisk) ∧
    ∃ m, SessionMessages utc (NewApp (ascii "src") (ascii "dst")) exSession ([] ++ [exRow])
        exDisk = .ok ([] ++ [m], exDisk) ∧
      m.Media = [] ∧ m.MediaExt = [] ∧ m.Text = exRow.ZTEXT.getD [] :=
  ⟨rfl, rfl, by decide, rfl, rfl,
    SessionMessages_unresolved_media utc (ascii "src") (ascii "dst") exManifest exMediaNoPath
      (NewApp (ascii "src") (ascii "dst")) exSession [] exRow 5 exDisk exDisk [] rfl rfl
      (Or.inr (by decide)) rfl⟩

/-- The date of every message of a run, in terms of the date variable as the scan left it:
a date that parses gives the RFC 3339 text, in the local zone, of the instant 978307200
seconds later, a date that is null or does not parse gives the empty text, and for a row
that scans the variable holds the stored column.  After a run that succeeded, one more row
makes the run fail only in locating or copying the media of that row. -/
theorem SessionMessages_date (lz : Int → Int) (app : App) (session : Session)
    (rows : List MessageRow) (d d1 : Disk) (msgs : List Message)
    (hrun : SessionMessages lz app session rows d = .ok (msgs, d1)) :
    List.Forall₂ (fun row m =>
      (∀ text unix, (scanMessage row).1.date = some text → parseRFC3339 text = some unix →
        m.Date = formatRFC3339 (lz (unix + 978307200)) (unix + 978307200)) ∧
      (((scanMessage row).1.date = none ∨
          ∃ text, (scanMessage row).1.date = some text ∧ parseRFC3339 text = none) →
        m.Date = []) ∧
      ((scanMessage row).2 = false → (scanMessage row).1.date = row.ZMESSAGEDATE))
      rows msgs ∧
    (∀ row e, SessionMessages lz app session (rows ++ [row]) d = .error e →
      ∃ id, (scanMessage row).1.mediaID = some id ∧ (mediaAt app id).Hash ≠ [] ∧
        (e = .sliceOutOfRange ∨ e = .fatal "Copy media")) := by
  obtain ⟨hb, hloop⟩ := SessionMessages_eq lz app session rows d msgs d1 hrun
  constructor
  · obtain ⟨ms, hms, hall⟩ := sessionLoop_forall₂ lz app
      (Join [ascii "media", Itoa session.ID])
      (fun row m =>
        (∀ text unix, (scanMessage row).1.date = some text → parseRFC3339 text = some unix →
          m.Date = formatRFC3339 (lz (unix + 978307200)) (unix + 978307200)) ∧
        (((scanMessage row).1.date = none ∨
            ∃ text, (scanMessage row).1.date = some text ∧ parseRFC3339 text = none) →
          m.Date = []) ∧
        ((scanMessage row).2 = false → (scanMessage row).1.date = row.ZMESSAGEDATE))
      (by
        intro row d0 m d2 hrow
        obtain ⟨h1, h2⟩ := resolveRow_date lz app _ row d0 d2 m hrow
        exact ⟨h1, h2, scanMessage_date row⟩)
      rows [] msgs d d1 hloop
    simp only [List.nil_append] at hms
    rw [hms]
    exact hall
  · intro row e he
    rw [SessionMessages_of_loop lz app session _ d hb,
      sessionLoop_append lz app _ rows [row] [] msgs d d1 hloop] at he
    simp only [sessionLoop] at he
    split at he
    · rename_i e0 hrow
      simp only [Except.error.injEq] at he
      subst he
      exact resolveRow_error lz app _ row d1 _ hrow
    · simp at he

theorem scanMessage_failed (row : MessageRow) (h : (scanMessage row).2 = true) :
    (scanMessage row).1.date = none := by
  unfold scanMessage at h ⊢
  split <;> simp_all

/-- C3 (the code at the failing input): the malformed row stores the date
`2020-01-01T00:00:00Z`, which parses to the Unix seconds 1577836800, and its scan returns an
error; the run appends a message for it all the same, with an empty `Date`, where the text
of the instant 1577836800 + 978307200 is `2051-01-01T00:00:00Z`.  The same row with an
integer in its media column gets that date.  In every run, a row that scans gets the date
the claim states, computed from its stored date, and a row whose scan fails gets the empty
date whatever its stored date is. -/
theorem malformed_row_date :
    exRowMalformed.ZMESSAGEDATE = some (ascii "2020-01-01T00:00:00Z") ∧
    parseRFC3339 (ascii "2020-01-01T00:00:00Z") = some 1577836800 ∧
    formatRFC3339 (utc (1577836800 + 978307200)) (1577836800 + 978307200) =
      ascii "2051-01-01T00:00:00Z" ∧
    (scanMessage exRowMalformed).2 = true ∧
    SessionMessages utc exApp exSession [exRowMalformed] exDisk =
      .ok ([{ Text := ascii "broken", Date := [] }], exDisk) ∧
    SessionMessages utc exApp exSession [{ exRowMalformed with ZMEDIAITEM := .null }] exDisk =
      .ok ([{ Text := ascii "broken", Date := ascii "2051-01-01T00:00:00Z" }], exDisk) ∧
    (∀ (lz : Int → Int) (app : App) (session : Session) (rows : List MessageRow)
      (d d1 : Disk) (msgs : List Message),
      SessionMessages lz app session rows d = .ok (msgs, d1) →
      List.Forall₂ (fun row m =>
        ((scanMessage row).2 = false →
          (∀ text unix, row.ZMESSAGEDATE = some text → parseRFC3339 text = some unix →
            m.Date = formatRFC3339 (lz (unix + 978307200)) (unix + 978307200)) ∧
          ((row.ZMESSAGEDATE = none ∨
              ∃ text, row.ZMESSAGEDATE = some text ∧ parseRFC3339 text = none) →
            m.Date = [])) ∧
        ((scanMessage row).2 = true → m.Date = [])) rows msgs) := by
  refine ⟨rfl, by decide, by decide, rfl, rfl, rfl, ?_⟩
  intro lz app session rows d d1 msgs hrun
  refine ((SessionMessages_date lz app session rows d d1 msgs hrun).1).imp ?_
  intro row m hm
  obtain ⟨h1, h2, h3⟩ := hm
  constructor
  · intro hok
    rw [← h3 hok]
    exact ⟨h1, h2⟩
  · intro hfail
    exact h2 (Or.inl (scanMessage_failed row hfail))

/-- C4 (counterexample): in the zone UTC the stored value `2020-01-01T00:00:00Z` yields the
date `2051-01-01T00:00:00Z`, and in no local zone does the run yield a message dated
`2050-12-16T00:00:00Z`. -/
theorem date_2050_counterexample :
    SessionMessages utc (NewApp (ascii "src") (ascii "dst")) exSession [dateRow] {} =
      .ok ([{ Date := ascii "2051-01-01T00:00:00Z" }], {}) ∧
    ¬ ∃ (lz : Int → Int) (msgs : List Message) (d1 : Disk) (m : Message),
      SessionMessages lz (NewApp (ascii "src") (ascii "dst")) exSession [dateRow] {} =
        .ok (msgs, d1) ∧ m ∈ msgs ∧ m.Date = ascii "2050-12-16T00:00:00Z" := by
  refine ⟨rfl, ?_⟩
  rintro ⟨lz, msgs, d1, m, hrun, hm, hdate⟩
  obtain ⟨rfl, _⟩ := dateRow_run lz _ _ _ _ _ hrun
  simp only [List.mem_singleton] at hm
  subst hm
  simp only at hdate
  by_cases h0 : lz 2556144000 = 0
  · rw [h0] at hdate
    revert hdate
    decide
  · have := formatRFC3339_last _ 2556144000 h0
    rw [hdate] at this
    exact this (by decide)

/-- C4 (amended): the stored value `2020-01-01T00:00:00Z` has the Unix seconds 1577836800,
the archive timestamp is 1577836800 + 978307200 = 2556144000 seconds after the Unix epoch,
and where the local zone is at offset zero at that instant the date of the message is
`2051-01-01T00:00:00Z`. -/
theorem date_2051 (lz : Int → Int) (app : App) (session : Session) (d d1 : Disk)
    (msgs : List Message) (hz : lz 2556144000 = 0)
    (hrun : SessionMessages lz app session [dateRow] d = .ok (msgs, d1)) :
    parseRFC3339 (ascii "2020-01-01T00:00:00Z") = some 1577836800 ∧
    (1577836800 : Int) + 978307200 = 2556144000 ∧
    msgs = [{ Date := ascii "2051-01-01T00:00:00Z" }] := by
  refine ⟨by decide, by decide, ?_⟩
  obtain ⟨rfl, _⟩ := dateRow_run lz _ _ _ _ _ hrun
  rw [hz]
  have hf : formatRFC3339 0 2556144000 = ascii "2051-01-01T00:00:00Z" := by decide
  rw [hf]

/-- C4 (witness): the amended statement in the zone UTC, for a session without media. -/
theorem date_2051_witness :
    utc 2556144000 = 0 ∧
    SessionMessages utc (NewApp (ascii "src") (ascii "dst")) exSession [dateRow] {} =
      .ok ([{ Date := ascii "2051-01-01T00:00:00Z" }], {}) ∧
    parseRFC3339 (ascii "2020-01-01T00:00:00Z") = some 1577836800 ∧
    (1577836800 : Int) + 978307200 = 2556144000 ∧
    ([{ Date := ascii "2051-01-01T00:00:00Z" }] : List Message) =
      [{ Date := ascii "2051-01-01T00:00:00Z" }] :=
  ⟨rfl, rfl, date_2051 utc (NewApp (ascii "src") (ascii "dst")) exSession {} {}
    [{ Date := ascii "2051-01-01T00:00:00Z" }] rfl rfl⟩

/-- C5: for every path `p` that does not start with `/`, `LoadMediaMap` looks up a media
row with the path `p` and a media row with the path `/` followed by `p` under the same key,
`Message/` followed by `p`, so in a media table whose keys are unique the two descriptors
have the same hash: the file id of a manifest row with that logical path when there is one,
and the empty hash otherwise. -/
theorem media_path_normalization (p : GoString) (src dst : GoString)
    (manifest : List ManifestRow) (media : List MediaRow) (i j : Int)
    (t1 t2 : Option GoString) (app : App)
    (hp : HasPrefix p (ascii "/") = false)
    (hload : LoadMediaMap (NewApp src dst) manifest media = .ok app)
    (hkey : ∀ r ∈ media, ∀ r2 ∈ media, r.Z_PK = r2.Z_PK → r = r2)
    (h1 : { Z_PK := .int i, ZMEDIALOCALPATH := some p, ZTITLE := t1 } ∈ media)
    (h2 : { Z_PK := .int j, ZMEDIALOCALPATH := some (ascii "/" ++ p), ZTITLE := t2 } ∈ media) :
    mediaKey p = ascii "Message/" ++ p ∧ mediaKey (ascii "/" ++ p) = ascii "Message/" ++ p ∧
    (mediaAt app i).Hash = (mediaAt app j).Hash ∧
    ((∃ row ∈ manifest, row.relativePath = some (ascii "Message/" ++ p) ∧
        row.fileID = some (mediaAt app i).Hash) ∨
      ((mediaAt app i).Hash = [] ∧
        ∀ row ∈ manifest, row.relativePath ≠ some (ascii "Message/" ++ p))) := by
  have hk1 := mediaKey_relative p hp
  have hk2 := mediaKey_rooted p
  obtain ⟨hashMap, hhash, hi⟩ :=
    LoadMediaMap_row src dst manifest media app hload hkey i p t1 h1
  obtain ⟨hashMap2, hhash2, hj⟩ :=
    LoadMediaMap_row src dst manifest media app hload hkey j _ t2 h2
  rw [hhash] at hhash2
  simp only [Except.ok.injEq] at hhash2
  subst hhash2
  have hi2 : (mediaAt app i).Hash = hashOf hashMap (ascii "Message/" ++ p) := by
    rw [hi]; simp [mediaOf, hk1]
  have hj2 : (mediaAt app j).Hash = hashOf hashMap (ascii "Message/" ++ p) := by
    rw [hj]; simp [mediaOf, hk2]
  refine ⟨hk1, hk2, by rw [hi2, hj2], ?_⟩
  rw [hi2]
  obtain ⟨g1, g2⟩ := loadHashMap_find manifest [] hashMap hhash (ascii "Message/" ++ p)
  unfold hashOf
  cases hf : find (ascii "Message/" ++ p) hashMap with
  | none =>
    right
    exact ⟨rfl, (g2 hf).2⟩
  | some hash =>
    left
    rcases g1 hash hf with h | h
    · simp [find] at h
    · simpa using h

/-- C5 (witness): `/Media/x.jpg` and `Media/x.jpg` both give the key `Message/Media/x.jpg`,
and the two media rows get the hash `cd34` of the manifest row with that path. -/
theorem media_path_normalization_witness :
    HasPrefix (ascii "Media/x.jpg") (ascii "/") = false ∧
    LoadMediaMap (NewApp (ascii "src") (ascii "dst")) keyManifest keyMedia = .ok keyApp ∧
    mediaKey (ascii "/Media/x.jpg") = ascii "Message/Media/x.jpg" ∧
    mediaKey (ascii "Media/x.jpg") = ascii "Message/Media/x.jpg" ∧
    (mediaAt keyApp 1).Hash = ascii "cd34" ∧ (mediaAt keyApp 2).Hash = ascii "cd34" ∧
    (mediaAt keyApp 1).Hash = (mediaAt keyApp 2).Hash :=
  ⟨rfl, rfl, rfl, rfl, rfl, rfl,
    (media_path_normalization (ascii "Media/x.jpg") (ascii "src") (ascii "dst") keyManifest
      keyMedia 1 2 none none keyApp rfl rfl (by decide) (by decide) (by decide)).2.2.1⟩

/-- C6: on the rows of any sequence of sessions, `GetSessions` returns exactly the
subsequence, in the same order, of the sessions whose conversation key does not end with
`@status`: no such session is in the result, every other session of the sequence is, and
`1234@status` is such a key.  The rows that scan are exactly the rows of sessions, so every
result of `GetSessions` is of this form. -/
theorem GetSessions_filter (ss : List Session) :
    GetSessions (ss.map Session.toRow) =
      some (ss.filter (fun s => !HasSuffix s.CID (ascii "@status"))) ∧
    (∀ out, GetSessions (ss.map Session.toRow) = some out →
      out.Sublist ss ∧
      (∀ s ∈ out, HasSuffix s.CID (ascii "@status") = false) ∧
      (∀ s ∈ ss, HasSuffix s.CID (ascii "@status") = false → s ∈ out)) ∧
    HasSuffix (ascii "1234@status") (ascii "@status") = true ∧
    (∀ rows out, GetSessions rows = some out →
      ∃ ss2 : List Session, rows = ss2.map Session.toRow) := by
  have h := getSessionsLoop_rows ss []
  simp only [List.nil_append] at h
  refine ⟨h, ?_, by decide, fun rows out hr => getSessionsLoop_scanned rows [] out hr⟩
  intro out hout
  unfold GetSessions at hout
  rw [h] at hout
  simp only [Option.some.injEq] at hout
  subst hout
  refine ⟨List.filter_sublist _, ?_, ?_⟩
  · intro s hs
    simpa using (List.mem_filter.mp hs).2
  · intro s hs hk
    exact List.mem_filter.mpr ⟨hs, by simp [hk]⟩

/-- C7 (the code at the failing input): the scan of the malformed row returns an error,
and the run over a good row, the malformed row and another good row nevertheless yields
three messages, the second one built from the text of the malformed row, where the run over
the two good rows yields two.  No run ever skips a row: the messages of a run that succeeds
are as many as its rows. -/
theorem scan_failure_not_skipped :
    (scanMessage exRowMalformed).2 = true ∧
    SessionMessages utc exApp exSession [exRowNoDate, exRowMalformed, exRowBadDate] exDisk =
      .ok ([{ Text := ascii "ok", IsGroup := true }, { Text := ascii "broken" },
            { Text := ascii "bye" }], exDisk) ∧
    SessionMessages utc exApp exSession [exRowNoDate, exRowBadDate] exDisk =
      .ok ([{ Text := ascii "ok", IsGroup := true }, { Text := ascii "bye" }], exDisk) ∧
    (∀ (lz : Int → Int) (app : App) (session : Session) (rows : List MessageRow)
      (d d1 : Disk) (msgs : List Message),
      SessionMessages lz app session rows d = .ok (msgs, d1) → msgs.length = rows.length) :=
  ⟨rfl, rfl, rfl, SessionMessages_length⟩

/-- C8 (the code at the failing input): with the cap 1, `main` processes the first two of
three sessions, with the cap 2 all three, and without a cap all three.  For every positive
cap `n`, a run of `main` that ends without an abort processes the first `n + 1` of the
enumerated sessions, all of them when they are fewer. -/
theorem chat_limit_off_by_one :
    (main utc (ascii "src") (ascii "dst") 1 exStore exDisk).map
        (fun r => r.1.map (fun sm => sm.1.ID)) = .ok [1, 2] ∧
    (main utc (ascii "src") (ascii "dst") 2 exStore exDisk).map
        (fun r => r.1.map (fun sm => sm.1.ID)) = .ok [1, 2, 3] ∧
    (main utc (ascii "src") (ascii "dst") (-1) exStore exDisk).map
        (fun r => r.1.map (fun sm => sm.1.ID)) = .ok [1, 2, 3] ∧
    (∀ (lz : Int → Int) (src dst : GoString) (n : Nat) (store : Store)
      (out : List (Session × List Message)) (d d1 : Disk),
      0 < n → main lz src dst n store d = .ok (out, d1) →
      ∃ sessions, GetSessions store.sessions = some sessions ∧
        out.map Prod.fst = sessions.take (n + 1)) := by
  refine ⟨rfl, rfl, rfl, ?_⟩
  intro lz src dst n store out d d1 hn h
  unfold main at h
  split at h
  · simp at h
  · rename_i app _
    cases hs : GetSessions store.sessions with
    | none => simp [hs, check] at h
    | some sessions =>
      simp only [hs, check] at h
      refine ⟨sessions, rfl, ?_⟩
      have := (mainLoop_sessions lz app store.messagesOf n sessions 0 [] out d d1 h).1
        (by exact_mod_cast hn) (by exact_mod_cast Nat.zero_le n)
      simpa using this

/-- C9: materialization is idempotent.  A run of `SessionMessages` that succeeds copies only
to destination paths at which no file existed, and to none of them twice; each copy is the
one of a media id of its rows, from the content location of the hash to
`<DstDir>/media/<sessionID>/<mediaID><ext>`, and gives the destination the content the
source had; every file that existed keeps its content; and the same run started again from
the file system it left makes no copy, leaves that file system as it is and yields the same
messages, relative media paths included. -/
theorem materialize_idempotent (lz : Int → Int) (app : App) (session : Session)
    (rows : List MessageRow) (d d1 : Disk) (msgs : List Message)
    (hrun : SessionMessages lz app session rows d = .ok (msgs, d1)) :
    SessionMessages lz app session rows d1 = .ok (msgs, d1) ∧
    (∀ p c, d.read p = some c → d1.read p = some c) ∧
    ∃ new, d1.copied = d.copied ++ new ∧
      (∀ st ∈ new, d.read st.2 = none ∧ d1.read st.2 ≠ none ∧
        (∀ c, d.read st.1 = some c → d1.read st.2 = some c) ∧
        ∃ row ∈ rows, ∃ id, (scanMessage row).1.mediaID = some id ∧
          st = (Join [app.SrcDir, (mediaAt app id).Hash.take 2, (mediaAt app id).Hash],
                Join [app.DstDir, Join [ascii "media", Itoa session.ID],
                  Itoa id ++ (mediaAt app id).Ext])) ∧
      (new.map Prod.snd).Nodup := by
  obtain ⟨hb, hloop⟩ := SessionMessages_eq lz app session rows d msgs d1 hrun
  obtain ⟨hk, hbl, hnew, ms, hms, hre⟩ := sessionLoop_disk lz app _ rows [] msgs d d1 hloop
  refine ⟨?_, hk, hnew⟩
  rw [SessionMessages_of_loop lz app session rows d1 (by rw [hbl]; exact hb)]
  have := hre d1 [] (Keeps.refl _)
  simp only [List.nil_append] at this hms
  rw [this, hms]

/-- C9 (witness): two messages reference media id 5; the first run makes one copy, to
`dst/media/7/5.jpg`, and the second run, from the file system the first one left, makes
none and yields the same two messages. -/
theorem materialize_idempotent_witness :
    SessionMessages utc exApp exSession [exRow, exRow] exDisk = .ok ([exMsg, exMsg], exDisk1) ∧
    exDisk1.copied = [(ascii "src/ab/ab12", ascii "dst/media/7/5.jpg")] ∧
    SessionMessages utc exApp exSession [exRow, exRow] exDisk1 =
      .ok ([exMsg, exMsg], exDisk1) :=
  ⟨rfl, rfl,
    (materialize_idempotent utc exApp exSession [exRow, exRow] exDisk exDisk1 [exMsg, exMsg]
      rfl).1⟩

/-- C10 (counterexample): for the hash `a`, which is not empty, the content location fails
with a slice out of range, and so does the run over a message whose media has that hash;
for the source root `src/` and the hash `ab12` the location is `src/ab/ab12`, which is not
the root followed by `/ab/ab12`. -/
theorem locate_counterexample :
    locate (ascii "src") (ascii "a") = .error .sliceOutOfRange ∧
    LoadMediaMap (NewApp (ascii "src") (ascii "dst"))
      [{ fileID := some (ascii "a"), relativePath := some (ascii "Message/Media/x.jpg") }]
      [{ Z_PK := .int 5, ZMEDIALOCALPATH := some (ascii "Media/x.jpg"), ZTITLE := none }] =
      .ok shortHashApp ∧
    SessionMessages utc shortHashApp exSession [exRow]
      { files := [(ascii "src/a/a", ascii "JPEG")] } = .error .sliceOutOfRange ∧
    locate (ascii "src/") (ascii "ab12") = .ok (ascii "src/ab/ab12") ∧
    ascii "src/ab/ab12" ≠
      ascii "src/" ++ ascii "/" ++ ascii "ab" ++ ascii "/" ++ ascii "ab12" := by
  refine ⟨rfl, rfl, rfl, rfl, by decide⟩

/-- C10 (amended): for every source root `r` and every hash `h` of at least two bytes, the
content location is computed without a failure and is `path.Join(r, h[:2], h)`, where
`h[:2]` is the first two bytes of `h`; when `r` is a clean path other than `.` and `/`, `h`
contains no slash and `h[:2]` is not `..`, this is exactly `r`, a slash, `h[:2]`, a slash
and `h`. -/
theorem locate_path (r h : GoString) (hlen : 2 ≤ h.length) :
    locate r h = .ok (Join [r, h.take 2, h]) ∧
    (Clean r = r → r ≠ [dot] → r ≠ [slash] → slash ∉ h → h.take 2 ≠ [dot, dot] →
      locate r h = .ok (r ++ ascii "/" ++ h.take 2 ++ ascii "/" ++ h)) := by
  have hl : ¬ h.length < 2 := by omega
  have h1 : locate r h = .ok (Join [r, h.take 2, h]) := by simp [locate, hl]
  refine ⟨h1, ?_⟩
  intro hclean hdot hroot hslash hdd
  obtain ⟨a, b, t, rfl⟩ : ∃ a b t, h = a :: b :: t := by
    match h, hlen with
    | a :: b :: t, _ => exact ⟨a, b, t, rfl⟩
  have hrne : r ≠ [] := by
    intro e; rw [e] at hclean; simp [Clean] at hclean
  have hx : Plain (List.take 2 (a :: b :: t)) := by
    refine ⟨by simp, ?_, by simp, hdd⟩
    intro hm
    exact hslash (List.mem_of_mem_take hm)
  have hy : Plain (a :: b :: t) := by
    refine ⟨by simp, hslash, by simp, ?_⟩
    intro e
    apply hdd
    simp only [List.cons.injEq] at e
    simp [List.take, e.1, e.2.1]
  have c1 := Clean_snoc r _ hclean hdot hroot hx
  have hd2 : r ++ slash :: List.take 2 (a :: b :: t) ≠ [dot] := by
    obtain ⟨c, cs, rfl⟩ := List.exists_cons_of_ne_nil hrne
    simp
  have hs2 : r ++ slash :: List.take 2 (a :: b :: t) ≠ [slash] := by
    obtain ⟨c, cs, rfl⟩ := List.exists_cons_of_ne_nil hrne
    simp
  have c2 := Clean_snoc _ _ c1 hd2 hs2 hy
  rw [h1, Join_three r _ _ hrne hx.1 hy.1, c2]
  have e : ascii "/" = [slash] := by decide
  rw [e]
  simp

/-- C10 (witness): for the source root `src` and the hash `ab12` every condition holds and
the content location is `src/ab/ab12`. -/
theorem locate_path_witness :
    2 ≤ (ascii "ab12").length ∧ Clean (ascii "src") = ascii "src" ∧
    locate (ascii "src") (ascii "ab12") = .ok (ascii "src/ab/ab12") :=
  ⟨by decide, by decide,
    (locate_path (ascii "src") (ascii "ab12") (by decide)).2 (by decide) (by decide)
      (by decide) (by decide) (by decide)⟩

end Exporter
